import Mathlib

/-!
Verification of the jedi-mcp documentation pipeline.

This file gives a shallow embedding in Lean 4 of the parts of the jedi-mcp
code base that the specification talks about, and proves (or refutes)
the specified properties against that embedding:

* `src/jedi_mcp/navigation_extractor.py` — link admission filter,
  deduplication, and the tiered extraction control flow;
* `src/jedi_mcp/crawler.py` — retry with exponential backoff and the
  skip-on-failure crawl loop;
* `src/jedi_mcp/content_processor.py` — the fallback path-segment
  grouping and content deduplication;
* `src/jedi_mcp/database.py` — content-group storage against the
  relational schema;
* `src/jedi_mcp/mcp_server.py` — the searchDoc operation and its
  keyword-search fallback;
* `src/jedi_mcp/vector_database.py` — vector normalization, cosine
  similarity and the candidate window of the similarity search.

Python strings are modelled by `String` (lists of characters), Python
ints by `Nat`/`Int`, Python floats by `ℝ` (exact real arithmetic; the
real-valued definitions are marked noncomputable), raising code by
`Except`/`Option`, and the SQLite store by explicit record states.
External services (the LLM agent, the embedding model, the HTTP client,
the HTML parser) are modelled by their outcomes, passed in as inputs.
-/

namespace JediMCP

/-! ## String utilities (models of the Python string operations used) -/

/-- Model of the character class matched by the Python regex `\s` and by
`str.strip` / `str.split()` on ASCII text: space, tab, newline, carriage
return, vertical tab and form feed. -/
def isPySpace (c : Char) : Bool :=
  c == ' ' || c == '\t' || c == '\n' || c == '\r' || c == '\x0b' || c == '\x0c'

/-- Model of `re.sub(r'\s+', ' ', s)` on a character list: every maximal
run of whitespace characters is replaced by a single space. -/
def collapseWS : List Char → List Char
  | [] => []
  | c :: rest =>
    if isPySpace c then
      match collapseWS rest with
      | [] => [' ']
      | d :: ds => if d == ' ' then d :: ds else ' ' :: d :: ds
    else c :: collapseWS rest

/-- Model of Python `str.strip()` on a character list. -/
def stripWS (l : List Char) : List Char :=
  ((l.dropWhile isPySpace).reverse.dropWhile isPySpace).reverse

/-- Model of Python `str.strip()`. -/
def pyStrip (s : String) : String :=
  String.mk (stripWS s.data)

/-- Model of Python `str.lower()` (ASCII case folding). -/
def lowerStr (s : String) : String :=
  String.mk (s.data.map Char.toLower)

/-- Split a character list at every character satisfying the predicate
(the pieces between separator characters, in order). -/
def splitPred (p : Char → Bool) : List Char → List (List Char)
  | [] => [[]]
  | c :: cs =>
    let r := splitPred p cs
    if p c then [] :: r
    else
      match r with
      | [] => [[c]]
      | h :: t => (c :: h) :: t

/-- Model of Python `str.split(sep)` for a single-character separator. -/
def splitChar (sep : Char) (l : List Char) : List (List Char) :=
  splitPred (fun c => c == sep) l

/-- Model of Python `str.split()` with no argument: split on whitespace
runs, dropping empty pieces. -/
def pySplitWS (s : String) : List String :=
  ((splitPred isPySpace s.data).filter (fun p => p != [])).map String.mk

/-- Whether the character-list pattern starts the character-list text. -/
def startsWithL : List Char → List Char → Bool
  | [], _ => true
  | _ :: _, [] => false
  | p :: ps, c :: cs => p == c && startsWithL ps cs

/-- Model of Python `str.startswith(pat)`. -/
def pyStartsWith (s pat : String) : Bool :=
  startsWithL pat.data s.data

/-- Whether the pattern occurs somewhere in the text (character lists). -/
def occursIn (pat : List Char) : List Char → Bool
  | [] => pat == []
  | c :: cs => startsWithL pat (c :: cs) || occursIn pat cs

/-- Model of the Python substring test `pat in s`. -/
def strContainsSub (s pat : String) : Bool :=
  occursIn pat.data s.data

/-- Break a character list at the first occurrence of the pattern:
`some (before, after)` with the pattern removed, `none` when the pattern
does not occur. -/
def breakOnL (pat : List Char) : List Char → Option (List Char × List Char)
  | [] => none
  | c :: cs =>
    if startsWithL pat (c :: cs) then some ([], List.drop (pat.length - 1) cs)
    else
      match breakOnL pat cs with
      | none => none
      | some r => some (c :: r.1, r.2)

/-! ## URL model

Models of the Python standard-library functions `urllib.parse.urlparse`
and `urllib.parse.urljoin` as used by the extractor and the grouper,
restricted to the URL shapes that occur there (http/https URLs with an
optional query and fragment, scheme-only references such as `mailto:`,
fragment-only references, and path references). -/

/-- Modelled from the Python stdlib: `urlparse(url).netloc` — the
authority component between the first `://` and the next `/`, `?` or
`#`; empty when the URL has no `://` (covers relative references and
scheme-only references such as `mailto:`). -/
def urlDomain (url : String) : String :=
  match breakOnL "://".data url.data with
  | none => ""
  | some r => String.mk (r.2.takeWhile (fun c => c != '/' && c != '?' && c != '#'))

/-- Modelled from the Python stdlib: `urlparse(url).path` — the URL with
scheme, authority, query and fragment removed. -/
def urlPath (url : String) : String :=
  let noFrag := url.data.takeWhile (fun c => c != '#')
  let noQuery := noFrag.takeWhile (fun c => c != '?')
  match breakOnL "://".data noQuery with
  | none => String.mk noQuery
  | some r => String.mk (r.2.dropWhile (fun c => c != '/'))

/-- The part of a path up to and including its last slash (empty when the
path has no slash); used to resolve relative path references. -/
def dirOfPath (path : String) : String :=
  String.mk (path.data.reverse.dropWhile (fun c => c != '/')).reverse

/-- Modelled from the Python stdlib: `urljoin(base, rel)`, restricted to
the reference shapes exercised in this code base: absolute URLs and
scheme-only references (such as `mailto:`) are returned unchanged,
fragment references are attached to the base without its fragment,
root-relative paths replace the base path, and other relative paths
replace the last base path segment. -/
def urljoinModel (base rel : String) : String :=
  if rel == "" then base
  else if strContainsSub rel "://" then rel
  else if strContainsSub rel ":" then rel
  else if pyStartsWith rel "#" then
    String.mk (base.data.takeWhile (fun c => c != '#')) ++ rel
  else
    let noFrag := base.data.takeWhile (fun c => c != '#')
    let noQuery := noFrag.takeWhile (fun c => c != '?')
    match breakOnL "://".data noQuery with
    | some r =>
      let scheme := String.mk r.1
      let netloc := String.mk (r.2.takeWhile (fun c => c != '/'))
      let path := String.mk (r.2.dropWhile (fun c => c != '/'))
      if pyStartsWith rel "/" then scheme ++ "://" ++ netloc ++ rel
      else
        let dir := dirOfPath path
        scheme ++ "://" ++ netloc ++ (if dir == "" then "/" else dir) ++ rel
    | none =>
      if pyStartsWith rel "/" then rel
      else dirOfPath (String.mk noQuery) ++ rel

/-! ## Navigation extractor (`src/jedi_mcp/navigation_extractor.py`)

The HTML DOM walking done with BeautifulSoup is abstracted away: each
dialect walker is represented by the stream of raw `(href, text,
category)` candidates it feeds to `_create_doc_link`, and the parsed
document by what `_find_sidebar` and `_fallback_link_extraction` would
produce from it.  The link admission filter, the deduplication and the
tiered control flow are translated from the source. -/

/-- Model of `models.DocumentationLink`: url, optional title, optional
category. -/
structure DocLink where
  url : String
  title : Option String
  category : Option String
deriving DecidableEq, Repr

/-- The fixed denylist of URL substrings from `_create_doc_link` and
`_extract_with_ai` (identical lists in the source). -/
def denylist : List String :=
  ["twitter.com", "facebook.com", "linkedin.com", "github.com",
   "discord.com", "slack.com", "youtube.com",
   "/login", "/signup", "/register", "/auth",
   "/search", "?search=", "/download",
   "mailto:", "tel:", "javascript:"]

/-- Model of the denylist test in `_create_doc_link` /
`_extract_with_ai`: `any(pattern in absolute_url.lower() for pattern in [...])`. -/
def matchesDenylist (absolute_url : String) : Bool :=
  denylist.any (fun pat => strContainsSub (lowerStr absolute_url) pat)

/-- Translation of `_create_doc_link(link_tag, base_url, base_domain,
category)`.  `href` is the anchor href attribute and `text` the value of
`link_tag.get_text(strip=True) or link_tag.get('title', '')`. -/
def createDocLink (href text : String) (base_url base_domain : String)
    (category : Option String) : Option DocLink :=
  if href == "" || text == "" || pyStartsWith href "#" then none
  else
    let absolute_url := urljoinModel base_url href
    let link_domain := urlDomain absolute_url
    if link_domain != "" && link_domain != base_domain then none
    else if matchesDenylist absolute_url then none
    else some ⟨absolute_url, some text, category⟩

/-- Translation of the duplicate-removal loop shared by
`_extract_links_from_sidebar` and `_extract_with_ai` (`seen_urls` set,
first occurrence kept, order preserved); the seen set is carried as a
list of urls. -/
def dedupLoop : List DocLink → List String → List DocLink
  | [], _ => []
  | l :: rest, seen =>
    if l.url ∈ seen then dedupLoop rest seen
    else l :: dedupLoop rest (l.url :: seen)

/-- The deduplication applied to every final extraction result. -/
def dedupByUrl (links : List DocLink) : List DocLink :=
  dedupLoop links []

/-- A raw sidebar candidate: href, effective title text, and the category
determined by the dialect walker. -/
structure RawCandidate where
  href : String
  text : String
  category : Option String
deriving DecidableEq, Repr

/-- Translation of `_extract_links_from_sidebar`: every dialect walker
(Docusaurus, Material for MkDocs, generic) produces its links exclusively
through `_create_doc_link`; the walkers themselves are abstracted to the
ordered candidate stream `raw` they emit, and the final list is
deduplicated by URL. -/
def extractLinksFromSidebar (raw : List RawCandidate) (base_url : String) : List DocLink :=
  let base_domain := urlDomain base_url
  dedupByUrl (raw.filterMap (fun c => createDocLink c.href c.text base_url base_domain c.category))

/-- One entry of the JSON array returned by the AI agent in
`_extract_with_ai`: `link_data.get('url', '')` (absent url modelled by
`""`), `link_data.get('title')`, `link_data.get('category')`. -/
structure AICandidate where
  url : String
  title : Option String
  category : Option String
deriving DecidableEq, Repr

/-- Translation of the processing loop at the end of `_extract_with_ai`:
skip entries with an empty url, resolve against the base URL, drop links
whose (nonempty) domain differs from the base domain, drop denylist
matches, then deduplicate by URL.  Note that, unlike `_create_doc_link`,
this loop has no empty-title check and no anchor (`#`) check. -/
def processAILinks (base_url : String) (links_data : List AICandidate) : List DocLink :=
  let base_domain := urlDomain base_url
  let documentation_links := links_data.filterMap (fun ld =>
    if ld.url == "" then none
    else
      let absolute_url := urljoinModel base_url ld.url
      let link_domain := urlDomain absolute_url
      if link_domain != "" && link_domain != base_domain then none
      else if matchesDenylist absolute_url then none
      else some (⟨absolute_url, ld.title, ld.category⟩ : DocLink))
  dedupByUrl documentation_links

/-- Outcome of the AI agent interaction in `_extract_with_ai`:
`raises` models an exception escaping `create_navigation_model()`,
`Agent(...)` or `agent(prompt)` (none of these calls is inside a
try/except in the source); `parsed` models a response whose first
`[` … last `]` span parses as a JSON array with the given entries;
`noJsonArray` a response with no such span (`links_data = []`);
`parseError` a span that `json.loads` rejects, which triggers the manual
`_fallback_link_extraction` walk. -/
inductive AgentOutcome where
  | raises (msg : String)
  | parsed (links : List AICandidate)
  | noJsonArray
  | parseError
deriving DecidableEq, Repr

/-- Outcome of the browser tier of `extract_navigation_links`:
`unavailable` models `use_browser=False` or playwright missing (tier not
attempted); `raises` an exception inside `_extract_with_browser`
(caught by the source and degraded to HTML parsing); `ok` a successful
browser extraction. -/
inductive BrowserOutcome where
  | unavailable
  | raises (msg : String)
  | ok (links : List DocLink)
deriving DecidableEq, Repr

/-- Abstraction of the parsed root page: `sidebarRaw = some raw` models
`_find_sidebar` locating a sidebar whose dialect walker emits the
candidates `raw`; `none` models no sidebar found (the AI fallback is then
used).  `navFallbackRaw` is the candidate list that
`_fallback_link_extraction` derives from the nav/aside elements (that
helper only emits entries with a nonempty title and a href not starting
with `#`). -/
structure HtmlModel where
  sidebarRaw : Option (List RawCandidate)
  navFallbackRaw : List AICandidate
deriving DecidableEq, Repr

/-- Translation of `_extract_with_ai`: an exception from the model call
propagates (it is outside every try/except); otherwise the parsed (or
manually extracted) candidates are filtered and deduplicated. -/
def extractWithAI (agent : AgentOutcome) (doc : HtmlModel) (base_url : String) :
    Except String (List DocLink) :=
  match agent with
  | .raises msg => .error msg
  | .parsed links_data => .ok (processAILinks base_url links_data)
  | .noJsonArray => .ok (processAILinks base_url [])
  | .parseError => .ok (processAILinks base_url doc.navFallbackRaw)

/-- Translation of `_extract_from_html_smart`: extract from the sidebar
when one is found, otherwise fall back to the AI extractor. -/
def extractFromHtmlSmart (agent : AgentOutcome) (doc : HtmlModel) (base_url : String) :
    Except String (List DocLink) :=
  match doc.sidebarRaw with
  | some raw => .ok (extractLinksFromSidebar raw base_url)
  | none => extractWithAI agent doc base_url

/-- Translation of the top-level `extract_navigation_links`: a successful
browser extraction is returned directly; a browser exception is caught
and logged, after which the function falls back to HTML parsing, exactly
as when the browser tier is not attempted. -/
def extractNavigationLinks (browser : BrowserOutcome) (agent : AgentOutcome)
    (doc : HtmlModel) (base_url : String) : Except String (List DocLink) :=
  match browser with
  | .ok links => .ok links
  | .raises _ => extractFromHtmlSmart agent doc base_url
  | .unavailable => extractFromHtmlSmart agent doc base_url

/-! ## Crawler (`src/jedi_mcp/crawler.py`)

The HTTP client is abstracted by the outcome of each attempt: `f i` is
the result of the `i`-th call of the wrapped coroutine (`Except.error`
models an `httpx.RequestError` / `httpx.HTTPStatusError`).  Sleeps are
recorded as the list of wait times in seconds. -/

/-- Translation of the loop of `retry_with_backoff(max_retries)`:
attempt indices run over `range(max_retries)`; a success returns
immediately; a failure on the last attempt re-raises; any other failure
sleeps `2 ** attempt` seconds and retries.  The first component is
`some (.ok a)` for a normal return, `some (.error e)` for a raised
error, and `none` for the `return None` after an empty loop
(`max_retries = 0`); the second component is the list of sleeps. -/
def retryLoop (f : Nat → Except E A) (maxRetries attempt : Nat) :
    Option (Except E A) × List Nat :=
  if h : attempt < maxRetries then
    match f attempt with
    | .ok a => (some (.ok a), [])
    | .error e =>
      if attempt = maxRetries - 1 then (some (.error e), [])
      else
        let r := retryLoop f maxRetries (attempt + 1)
        (r.1, 2 ^ attempt :: r.2)
  else (none, [])
termination_by maxRetries - attempt
decreasing_by omega

/-- Translation of `fetch_page_content`: run the retrying fetch from
attempt 0 and, on success, extract the page content from the returned
HTML (the BeautifulSoup-based `extract_content_from_html` is abstracted
by `extract`); a raised fetch error is logged and re-raised unchanged. -/
def fetchPageContent (f : Nat → Except E String) (extract : String → A)
    (maxRetries : Nat) : Option (Except E A) × List Nat :=
  match retryLoop f maxRetries 0 with
  | (some (.ok html), sleeps) => (some (.ok (extract html)), sleeps)
  | (some (.error e), sleeps) => (some (.error e), sleeps)
  | (none, sleeps) => (none, sleeps)

/-- Translation of the loop of `crawl_pages`: each link is fetched, a
success is appended to `pages`, and a `RequestError`/`HTTPStatusError`
is logged and skipped with `continue`.  The per-link fetch outcomes are
given as a list. -/
def crawlPages (fetches : List (Except E A)) : List A :=
  fetches.filterMap (fun r =>
    match r with
    | .ok p => some p
    | .error _ => none)

/-! ## Content processor (`src/jedi_mcp/content_processor.py`) -/

/-- Model of `models.PageContent`. -/
structure PageC where
  url : String
  title : String
  content : String
  code_blocks : List String
deriving DecidableEq, Repr

/-- Translation of the grouping key of `_fallback_grouping`: the first
non-empty `/`-separated segment of the page URL path, `"general"` when
there is none. -/
def groupKey (path : String) : String :=
  match (splitChar '/' path.data).filter (fun p => p != []) with
  | [] => "general"
  | p :: _ => String.mk p

/-- One entry of the group dictionaries produced by the grouping step. -/
structure GroupDict where
  name : String
  page_indices : List Nat
  description : String
deriving DecidableEq, Repr

/-- Translation of `path_groups[group_key].append(i)` on a
`defaultdict(list)` whose iteration order is key insertion order: an
existing key gets the index appended, a new key is appended at the
end. -/
def addIndexToGroups : List (String × List Nat) → String → Nat → List (String × List Nat)
  | [], key, i => [(key, [i])]
  | (k, idxs) :: rest, key, i =>
    if k = key then (k, idxs ++ [i]) :: rest
    else (k, idxs) :: addIndexToGroups rest key i

/-- Translation of the `for i, page in enumerate(pages)` loop of
`_fallback_grouping`, building the path groups in order. -/
def buildPathGroups : List String → Nat → List (String × List Nat) → List (String × List Nat)
  | [], _, acc => acc
  | u :: rest, i, acc =>
    buildPathGroups rest (i + 1) (addIndexToGroups acc (groupKey (urlPath u)) i)

/-- Translation of `_fallback_grouping(pages)` (pages represented by
their URLs): group indices by the first non-empty path segment, then
collapse to the single `"documentation"` group when more than 10 groups
result. -/
def fallbackGrouping (urls : List String) : List GroupDict :=
  let groups := (buildPathGroups urls 0 []).map (fun g =>
    (⟨g.1, g.2, "Documentation pages under /" ++ g.1⟩ : GroupDict))
  if groups.length > 10 then
    [⟨"documentation", List.range urls.length, "All documentation pages"⟩]
  else groups

/-- Translation of the content fingerprint of
`_deduplicate_content_with_context`:
`re.sub(r'\s+', ' ', page.content[:300]).strip().lower()`.  The Python
`hash` of the normalized text is modelled by the normalized text
itself. -/
def contentFingerprint (content : String) : String :=
  String.mk ((stripWS (collapseWS (content.data.take 300))).map Char.toLower)

/-- Translation of the code-block fingerprint:
`re.sub(r'\s+', ' ', code_block).strip()`, again modelling the Python
`hash` by the normalized text. -/
def codeFingerprint (code : String) : String :=
  String.mk (stripWS (collapseWS code.data))

/-- The JavaScript indicator substrings of `_prioritize_code_blocks`. -/
def jsIndicators : List String :=
  ["function", "const ", "let ", "var ", "=>", "console.log", "document.",
   "window.", "async ", "await ", "import ", "export ", "require(",
   "module.exports", "npm ", "yarn ", "node ", ".js", ".ts", ".jsx", ".tsx"]

/-- The Python indicator substrings of `_prioritize_code_blocks`. -/
def pythonIndicators : List String :=
  ["def ", "import ", "from ", "class ", "if __name__", "print(",
   "pip install", "python ", ".py", "self.", "elif ", "lambda ", "yield ",
   "with ", "try:", "except:", "finally:"]

/-- The PHP indicator substrings of `_prioritize_code_blocks`. -/
def phpIndicators : List String :=
  ["<?php", "function ", "$", "echo ", "print ", "class ", "public ",
   "private ", "protected ", "namespace ", "use ", "composer ", ".php", "->"]

/-- Translation of `get_language_priority`: count the indicators of each
language present in the lowercased block and map the dominant language
to 1 (JavaScript), 2 (Python), 3 (PHP) or 4 (other). -/
def getLanguagePriority (code_block : String) : Nat :=
  let code_lower := lowerStr code_block
  let js_score := (jsIndicators.filter (fun ind => strContainsSub code_lower (lowerStr ind))).length
  let python_score := (pythonIndicators.filter (fun ind => strContainsSub code_lower (lowerStr ind))).length
  let php_score := (phpIndicators.filter (fun ind => strContainsSub code_lower (lowerStr ind))).length
  if js_score > python_score && js_score > php_score then 1
  else if python_score > php_score then 2
  else if php_score > 0 then 3
  else 4

/-- Translation of `_prioritize_code_blocks`:
`sorted(code_blocks, key=get_language_priority)`.  Python `sorted` is a
stable sort and the key takes values in 1..4, so the result is the
concatenation of the four priority classes, each in original order
(the empty-list early return coincides with this). -/
def prioritizeCodeBlocks (code_blocks : List String) : List String :=
  (code_blocks.filter (fun c => getLanguagePriority c == 1)) ++
  (code_blocks.filter (fun c => getLanguagePriority c == 2)) ++
  (code_blocks.filter (fun c => getLanguagePriority c == 3)) ++
  (code_blocks.filter (fun c => getLanguagePriority c == 4))

/-- Translation of the per-page `unique_code_blocks` loop of
`_deduplicate_content_with_context`: the first component is the list of
blocks whose fingerprint was not yet in `seen_code_blocks`, the second
the updated seen set (carried as a list of fingerprints). -/
def collectUniqueCode : List String → List String → List String × List String
  | [], seen => ([], seen)
  | c :: cs, seen =>
    if codeFingerprint c ∈ seen then collectUniqueCode cs seen
    else
      let r := collectUniqueCode cs (codeFingerprint c :: seen)
      (c :: r.1, r.2)

/-- Translation of the `seen_in_this_page` loop: deduplicate a block
list by fingerprint, first occurrence kept. -/
def dedupCodeInPage : List String → List String → List String
  | [], _ => []
  | c :: cs, seen =>
    if codeFingerprint c ∈ seen then dedupCodeInPage cs seen
    else c :: dedupCodeInPage cs (codeFingerprint c :: seen)

/-- Translation of the main loop of `_deduplicate_content_with_context`,
threading `seen_content_hashes` and `seen_code_blocks` explicitly: a page
is retained when its content fingerprint is new or it has a code block
whose fingerprint is new; a retained page stores
`_prioritize_code_blocks(unique_code_blocks + page.code_blocks)`,
deduplicated within the page and capped to 10 blocks. -/
def dedupPagesLoop : List PageC → List String → List String → List PageC
  | [], _, _ => []
  | p :: rest, seenContent, seenCode =>
    let cfp := contentFingerprint p.content
    let r := collectUniqueCode p.code_blocks seenCode
    if cfp ∉ seenContent ∨ r.1 ≠ [] then
      let finalCode := (dedupCodeInPage (prioritizeCodeBlocks (r.1 ++ p.code_blocks)) []).take 10
      { p with code_blocks := finalCode } :: dedupPagesLoop rest (cfp :: seenContent) r.2
    else
      dedupPagesLoop rest seenContent r.2

/-- Translation of `_deduplicate_content_with_context(pages)` (the
`if not pages` early return coincides with the loop on `[]`). -/
def deduplicateContentWithContext (pages : List PageC) : List PageC :=
  dedupPagesLoop pages [] []

/-- The content fingerprints of a list of pages, in order. -/
def contentFpsOf (pages : List PageC) : List String :=
  pages.map (fun q => contentFingerprint q.content)

/-- The code-block fingerprints of a list of pages, in order. -/
def codeFpsOf (pages : List PageC) : List String :=
  (pages.map (fun q => q.code_blocks.map codeFingerprint)).flatten

/-- Modelled from the spec: the retention rule as the spec words it —
walking the pages in order, a page is retained exactly when its
normalized leading-content fingerprint has not been seen earlier in the
group, or it contributes at least one code block whose normalized
fingerprint has not been seen earlier in the group.  Stated over the
list of earlier pages, for comparison with the source translation. -/
def specRetainedAux (prev : List PageC) : List PageC → List PageC
  | [] => []
  | p :: rest =>
    if contentFingerprint p.content ∉ contentFpsOf prev ∨
        ∃ b ∈ p.code_blocks, codeFingerprint b ∉ codeFpsOf prev then
      p :: specRetainedAux (prev ++ [p]) rest
    else
      specRetainedAux (prev ++ [p]) rest

/-- Modelled from the spec: the pages the spec says the deduplication
retains. -/
def specRetained (pages : List PageC) : List PageC :=
  specRetainedAux [] pages

/-! ## Storage layer (`src/jedi_mcp/database.py`)

The SQLite file is modelled by an explicit record state; AUTOINCREMENT
ids by per-table counters; the `UNIQUE(project_id, name)` constraint of
`content_groups` by the duplicate check of `storeContentGroup`; the
connection context manager (commit on success, rollback and re-raise on
exception) by returning `Except` with the original state untouched on
error. -/

/-- A row of the `projects` table. -/
structure ProjectRow where
  id : Nat
  name : String
  root_url : String
deriving DecidableEq, Repr

/-- A row of the `content_groups` table. -/
structure CGRow where
  id : Nat
  project_id : Nat
  name : String
  summary_markdown : String
deriving DecidableEq, Repr

/-- A row of the `pages` table. -/
structure PageRow where
  id : Nat
  content_group_id : Nat
  url : String
  title : String
  content : String
deriving DecidableEq, Repr

/-- The relational state of the store. -/
structure DbState where
  projects : List ProjectRow
  content_groups : List CGRow
  pages : List PageRow
  nextProjectId : Nat
  nextGroupId : Nat
  nextPageId : Nat
deriving DecidableEq, Repr

/-- The freshly initialized database (after `initialize_schema`). -/
def emptyDb : DbState :=
  ⟨[], [], [], 1, 1, 1⟩

/-- Model of `models.ContentGroup` as stored: name, summary and pages as
`(url, title, content)` triples. -/
structure ContentGroupC where
  name : String
  summary_markdown : String
  pages : List (String × String × String)
deriving DecidableEq, Repr

/-- Translation of `DatabaseManager._get_or_create_project`. -/
def getOrCreateProject (s : DbState) (project_name root_url : String) : DbState × Nat :=
  match s.projects.find? (fun p => p.name == project_name) with
  | some p => (s, p.id)
  | none =>
    ({ s with
        projects := s.projects ++ [⟨s.nextProjectId, project_name, root_url⟩],
        nextProjectId := s.nextProjectId + 1 },
     s.nextProjectId)

/-- The error message of the SQLite IntegrityError raised by the plain
`INSERT INTO content_groups` when a row with the same
`(project_id, name)` already exists. -/
def uniqueViolationMsg : String :=
  "IntegrityError: UNIQUE constraint failed: content_groups.project_id, content_groups.name"

/-- Translation of `DatabaseManager.store_content_group`: get or create
the project, `INSERT` the group row — which violates the
`UNIQUE(project_id, name)` schema constraint and raises an
IntegrityError when such a row exists, rolling the transaction back —
then insert the page rows, and return the new group id. -/
def storeContentGroup (s : DbState) (project_name : String) (g : ContentGroupC)
    (root_url : String) : Except String (DbState × Nat) :=
  let r := getOrCreateProject s project_name root_url
  let s1 := r.1
  let project_id := r.2
  if s1.content_groups.any (fun cg => cg.project_id == project_id && cg.name == g.name) then
    .error uniqueViolationMsg
  else
    let content_group_id := s1.nextGroupId
    let s2 := { s1 with
      content_groups := s1.content_groups ++ [⟨content_group_id, project_id, g.name, g.summary_markdown⟩],
      nextGroupId := content_group_id + 1 }
    let s3 := g.pages.foldl (fun st pg =>
      { st with
        pages := st.pages ++ [⟨st.nextPageId, content_group_id, pg.1, pg.2.1, pg.2.2⟩],
        nextPageId := st.nextPageId + 1 }) s2
    .ok (s3, content_group_id)

/-- The `content_groups` rows of a project-name/group-name pair, joined
through the `projects` table as the accessors do. -/
def groupRowsFor (s : DbState) (project_name group_name : String) : List CGRow :=
  match s.projects.find? (fun p => p.name == project_name) with
  | none => []
  | some p => s.content_groups.filter (fun cg => cg.project_id == p.id && cg.name == group_name)

/-! ## Retrieval engine (`src/jedi_mcp/mcp_server.py`)

The `document_embeddings` table joined with `projects` is modelled by a
list of rows given in `created_at DESC` order (the order the SQL
`ORDER BY de.created_at DESC` returns them in); the semantic-search tier
of `search_documents` is abstracted by its outcome. -/

/-- A row of `document_embeddings` joined to its project, as read by the
keyword search (`category` is NULL-able). -/
structure EmbRow where
  slug : String
  title : String
  category : Option String
  summary_text : String
  project : String
deriving DecidableEq, Repr

/-- One search result dictionary, as built by `_perform_keyword_search`
and (shape-wise) by the semantic branch; the relevance score is a
rational (Python floats such as 0.5 are exact here). -/
structure KwResult where
  slug : String
  title : String
  category : String
  relevance_score : ℚ
  content_preview : String
  section_matches : List String
deriving DecidableEq, Repr

/-- Translation of `row[2] or "General"`: Python `or` replaces both
`None` and the empty string. -/
def catOrGeneral (category : Option String) : String :=
  match category with
  | none => "General"
  | some c => if c == "" then "General" else c

/-- Translation of the preview construction
`row[3][:200] + "..." if len(row[3]) > 200 else row[3]`. -/
def mkPreview (summary_text : String) : String :=
  if summary_text.data.length > 200 then String.mk (summary_text.data.take 200) ++ "..."
  else summary_text

/-- The LIKE condition of the keyword search for one term:
`LOWER(de.title) LIKE ? OR LOWER(de.summary_text) LIKE ?` with pattern
`%term%` (the LIKE wildcard characters inside a term are not
modelled; a term is matched as a plain substring). -/
def likeMatch (term : String) (row : EmbRow) : Bool :=
  strContainsSub (lowerStr row.title) term || strContainsSub (lowerStr row.summary_text) term

/-- Translation of `_perform_keyword_search`: split the lowercased query
on whitespace, require the project name (AND), the category when given
(AND), and any term to match title or summary (OR); rows arrive in
`created_at DESC` order and are cut to `limit`; every result gets the
fixed relevance score 0.5. -/
def performKeywordSearch (db : List EmbRow) (query : String) (project_name : String)
    (category : Option String) (limit : Nat) : List KwResult :=
  let search_terms := pySplitWS (lowerStr query)
  let rows := db.filter (fun r =>
    r.project == project_name &&
    (match category with
     | some c => r.category == some c
     | none => true) &&
    (search_terms == [] || search_terms.any (fun t => likeMatch t r)))
  (rows.take limit).map (fun r =>
    ⟨r.slug, r.title, catOrGeneral r.category, (1 : ℚ) / 2, mkPreview r.summary_text, []⟩)

/-- The semantic tier of `search_documents` as seen by the fallback
logic: no embedding generator configured, an exception inside the
semantic branch (caught by the source, `results = []`), or a converted
result list. -/
inductive SemanticOutcome where
  | noGenerator
  | raises (msg : String)
  | results (rs : List KwResult)
deriving DecidableEq, Repr

/-- The response object serialized by `search_documents` (fields not
involved in the claims are omitted): an error-shaped response carries
`error` and an empty result list. -/
structure SearchResponse where
  error : Option String
  results : List KwResult
  total_results : Nat
  message : Option String
deriving DecidableEq, Repr

/-- Translation of `project or project_name` (Python `or`: `None` and
the empty string both fall back to the default). -/
def orDefaultStr (v : Option String) (dflt : String) : String :=
  match v with
  | none => dflt
  | some p => if p == "" then dflt else p

/-- Translation of the `searchDoc` tool body `search_documents`: an
empty or whitespace-only query returns the error-shaped response
(`not query or not query.strip()` is equivalent to `query.strip() ==
""`); the limit is clamped to 1..20; the semantic tier runs when a
generator is configured and its exceptions are caught; when it is absent,
raises, or yields no results, the keyword search is used.  The function
is total: the surrounding try/except returns an error object instead of
raising. -/
def searchDocuments (semantic : SemanticOutcome) (db : List EmbRow)
    (default_project : String) (query : String) (project : Option String)
    (category : Option String) (limit : Nat) : SearchResponse :=
  if pyStrip query == "" then
    ⟨some "Query cannot be empty", [], 0, none⟩
  else
    let limit := min (max 1 limit) 20
    let search_project := orDefaultStr project default_project
    let semanticResults :=
      match semantic with
      | .noGenerator => []
      | .raises _ => []
      | .results rs => rs
    let results :=
      if semanticResults == [] then
        performKeywordSearch db query search_project category limit
      else semanticResults
    ⟨none, results, results.length,
     if results == [] then
       some "No relevant documents found. Try different keywords or check available categories."
     else none⟩

/-! ## Vector database (`src/jedi_mcp/vector_database.py`)

Python floats are modelled by exact reals, so these definitions are
noncomputable; the JSON-decoded embedding blobs are the stored `List ℝ`
directly (a decode failure skips the row in the source and is not
modelled), and the per-result section matching — a separate query that
does not influence which document rows are returned — is omitted from
the search result. -/

/-- The sum of squares `sum(x * x for x in vector)` from
`VectorDatabaseManager._normalize_vector`. -/
noncomputable def sumSquares (v : List ℝ) : ℝ :=
  (v.map (fun x => x * x)).sum

/-- The zipped dot product `sum(a * b for a, b in zip(vec1, vec2))` from
`VectorDatabaseManager._cosine_similarity`. -/
noncomputable def dotList (vec1 vec2 : List ℝ) : ℝ :=
  ((vec1.zip vec2).map (fun p => p.1 * p.2)).sum

/-- Translation of the magnitude computed by
`VectorDatabaseManager._normalize_vector`:
`math.sqrt(sum(x * x for x in vector))`. -/
noncomputable def vecMagnitude (v : List ℝ) : ℝ :=
  Real.sqrt (sumSquares v)

/-- Translation of `VectorDatabaseManager._normalize_vector`: the vector
is returned unchanged when its magnitude is 0, otherwise divided
componentwise by its magnitude. -/
noncomputable def normalizeVector (v : List ℝ) : List ℝ :=
  let magnitude := vecMagnitude v
  if magnitude = 0 then v else v.map (fun x => x / magnitude)

/-- Translation of `VectorDatabaseManager._cosine_similarity`: 0.0 for
vectors of different lengths, otherwise
`sum(a * b for a, b in zip(vec1, vec2))`. -/
noncomputable def cosineSimilarity (vec1 vec2 : List ℝ) : ℝ :=
  if vec1.length ≠ vec2.length then 0
  else dotList vec1 vec2

/-- A row of `document_embeddings` joined to its project, as read by
`search_similar_documents`. -/
structure DocEmbRow where
  slug : String
  title : String
  category : Option String
  summary_text : String
  embedding : List ℝ
  project : String

/-- A similarity search result (slug and relevance score; the preview
and section matches do not influence row selection). -/
structure SearchResultC where
  slug : String
  relevance_score : ℝ

/-- Translation of the optional WHERE filters of
`search_similar_documents` (`if project_name:` / `if category:` —
Python truthiness makes `None` and `""` skip the filter). -/
def rowMatchesFilters (project_name category : Option String) (r : DocEmbRow) : Bool :=
  (match project_name with
   | none => true
   | some pn => if pn == "" then true else r.project == pn) &&
  (match category with
   | none => true
   | some c => if c == "" then true else r.category == some c)

/-- Insertion into a list sorted by the boolean comparator. -/
def insertLe (le : A → A → Bool) (a : A) : List A → List A
  | [] => [a]
  | b :: bs => if le a b then a :: b :: bs else b :: insertLe le a bs

/-- Insertion sort by a boolean comparator, modelling Python
`list.sort`. -/
def sortLe (le : A → A → Bool) : List A → List A
  | [] => []
  | a :: rest => insertLe le a (sortLe le rest)

/-- Translation of `search_similar_documents`: the SQL query returns the
rows matching the project/category filters in `created_at DESC` order
(the list `db` is given in that order) cut to `LIMIT limit * 2`; each
candidate in that window is scored by cosine similarity between the
normalized query vector and its normalized embedding, kept when the
score reaches the threshold, then the kept results are sorted by
descending score and cut to `limit`. -/
noncomputable def searchSimilarDocuments (db : List DocEmbRow) (query_embedding : List ℝ)
    (project_name category : Option String) (limit : Nat)
    (similarity_threshold : ℝ) : List SearchResultC :=
  let candidates := (db.filter (rowMatchesFilters project_name category)).take (limit * 2)
  let query_embedding_norm := normalizeVector query_embedding
  let results := candidates.filterMap (fun r =>
    let similarity := cosineSimilarity query_embedding_norm (normalizeVector r.embedding)
    if similarity_threshold ≤ similarity then
      some (⟨r.slug, similarity⟩ : SearchResultC)
    else none)
  (sortLe (fun a b => decide (b.relevance_score ≤ a.relevance_score)) results).take limit

/-! ## Lemmas about the URL deduplication -/

theorem dedupLoop_mem {l : DocLink} :
    ∀ links seen, l ∈ dedupLoop links seen → l ∈ links ∧ l.url ∉ seen := by
  intro links
  induction links with
  | nil => intro seen h; simp [dedupLoop] at h
  | cons a rest ih =>
    intro seen h
    rw [dedupLoop] at h
    by_cases ha : a.url ∈ seen
    · rw [if_pos ha] at h
      rcases ih seen h with ⟨h1, h2⟩
      exact ⟨List.mem_cons_of_mem _ h1, h2⟩
    · rw [if_neg ha] at h
      rcases List.mem_cons.mp h with h | h
      · exact ⟨h ▸ List.mem_cons_self a rest, h ▸ ha⟩
      · rcases ih _ h with ⟨h1, h2⟩
        refine ⟨List.mem_cons_of_mem _ h1, fun hc => h2 ?_⟩
        exact List.mem_cons_of_mem _ hc

theorem dedupLoop_pairwise :
    ∀ links seen, List.Pairwise (fun a b => a.url ≠ b.url) (dedupLoop links seen) := by
  intro links
  induction links with
  | nil => intro seen; simp [dedupLoop]
  | cons a rest ih =>
    intro seen
    rw [dedupLoop]
    by_cases ha : a.url ∈ seen
    · rw [if_pos ha]; exact ih seen
    · rw [if_neg ha]
      refine List.pairwise_cons.mpr ⟨fun b hb => ?_, ih _⟩
      have := (dedupLoop_mem rest _ hb).2
      intro hab
      exact this (hab ▸ List.mem_cons_self _ _)

theorem dedupLoop_sublist :
    ∀ links seen, List.Sublist (dedupLoop links seen) links := by
  intro links
  induction links with
  | nil => intro seen; simp [dedupLoop]
  | cons a rest ih =>
    intro seen
    rw [dedupLoop]
    by_cases ha : a.url ∈ seen
    · rw [if_pos ha]; exact List.Sublist.cons a (ih seen)
    · rw [if_neg ha]; exact List.Sublist.cons₂ a (ih _)

theorem dedupLoop_complete {l : DocLink} :
    ∀ links seen, l ∈ links → l.url ∈ seen ∨ ∃ l2 ∈ dedupLoop links seen, l2.url = l.url := by
  intro links
  induction links with
  | nil => intro seen h; simp at h
  | cons a rest ih =>
    intro seen h
    rw [dedupLoop]
    by_cases ha : a.url ∈ seen
    · rw [if_pos ha]
      rcases List.mem_cons.mp h with h | h
      · exact Or.inl (h ▸ ha)
      · exact ih seen h
    · rw [if_neg ha]
      rcases List.mem_cons.mp h with h | h
      · exact Or.inr ⟨a, List.mem_cons_self _ _, (h ▸ rfl : a.url = l.url)⟩
      · rcases ih (a.url :: seen) h with hm | ⟨l2, h2, h3⟩
        · rcases List.mem_cons.mp hm with hm | hm
          · exact Or.inr ⟨a, List.mem_cons_self _ _, hm.symm⟩
          · exact Or.inl hm
        · exact Or.inr ⟨l2, List.mem_cons_of_mem _ h2, h3⟩

theorem dedupLoop_first {l : DocLink} :
    ∀ links seen, l ∈ dedupLoop links seen →
      (links.filter (fun x => x.url == l.url)).head? = some l := by
  intro links
  induction links with
  | nil => intro seen h; simp [dedupLoop] at h
  | cons a rest ih =>
    intro seen h
    rw [dedupLoop] at h
    by_cases ha : a.url ∈ seen
    · rw [if_pos ha] at h
      have hne : a.url ≠ l.url := by
        intro hc
        exact (dedupLoop_mem rest seen h).2 (hc ▸ ha)
      rw [List.filter_cons]
      simp only [beq_iff_eq]
      rw [if_neg (by simpa using hne)]
      exact ih seen h
    · rw [if_neg ha] at h
      rcases List.mem_cons.mp h with h | h
      · subst h
        rw [List.filter_cons]
        simp
      · have hne : a.url ≠ l.url := by
          intro hc
          have := (dedupLoop_mem rest _ h).2
          exact this (hc ▸ List.mem_cons_self _ _)
        rw [List.filter_cons]
        simp only [beq_iff_eq]
        rw [if_neg (by simpa using hne)]
        exact ih _ h

/-- C5: every final extraction result (structural-dialect path and AI
fallback path alike) is deduplicated by absolute URL — distinct
positions carry distinct URLs — and the deduplication keeps, for each
URL, exactly the first link carrying it, preserving the relative order
of the kept links (the result is a sublist of the input). -/
theorem C5_dedup_invariant :
    (∀ raw base_url,
      List.Pairwise (fun a b => a.url ≠ b.url) (extractLinksFromSidebar raw base_url)) ∧
    (∀ base_url lds,
      List.Pairwise (fun a b => a.url ≠ b.url) (processAILinks base_url lds)) ∧
    (∀ links, List.Sublist (dedupByUrl links) links) ∧
    (∀ links, ∀ l ∈ dedupByUrl links,
      (links.filter (fun x => x.url == l.url)).head? = some l) ∧
    (∀ links, ∀ l ∈ links, ∃ l2 ∈ dedupByUrl links, l2.url = l.url) := by
  refine ⟨?_, ?_, ?_, ?_, ?_⟩
  · intro raw base_url
    exact dedupLoop_pairwise _ []
  · intro base_url lds
    exact dedupLoop_pairwise _ []
  · intro links
    exact dedupLoop_sublist links []
  · intro links l hl
    exact dedupLoop_first links [] hl
  · intro links l hl
    rcases dedupLoop_complete links [] hl with h | h
    · simp at h
    · exact h

/-- C5 witness: on a concrete two-link list sharing a URL, the invariant
instantiates: the second occurrence maps to the kept first one. -/
theorem C5_dedup_invariant_witness :
    ∃ l2 ∈ dedupByUrl
      [(⟨"https://example.com/a", some "A", none⟩ : DocLink),
       ⟨"https://example.com/a", some "B", none⟩],
      l2.url = (⟨"https://example.com/a", some "B", none⟩ : DocLink).url := by
  exact C5_dedup_invariant.2.2.2.2
    [⟨"https://example.com/a", some "A", none⟩, ⟨"https://example.com/a", some "B", none⟩]
    ⟨"https://example.com/a", some "B", none⟩ (by decide)

/-! ## Lemmas about the link admission filter -/

theorem createDocLink_none_iff (href text base_url base_domain : String)
    (category : Option String) :
    createDocLink href text base_url base_domain category = none ↔
      (href = "" ∨ text = "" ∨ pyStartsWith href "#" = true ∨
       (urlDomain (urljoinModel base_url href) ≠ "" ∧
        urlDomain (urljoinModel base_url href) ≠ base_domain) ∨
       matchesDenylist (urljoinModel base_url href) = true) := by
  simp only [createDocLink]
  split_ifs with h1 h2 h3 <;>
    simp_all [Bool.or_eq_true, Bool.and_eq_true, beq_iff_eq, bne_iff_ne] <;>
    tauto

theorem createDocLink_some_props {href text base_url base_domain : String}
    {category : Option String} {l : DocLink}
    (h : createDocLink href text base_url base_domain category = some l) :
    (urlDomain l.url = "" ∨ urlDomain l.url = base_domain) ∧
      matchesDenylist l.url = false ∧ l.title = some text ∧ text ≠ "" := by
  simp only [createDocLink] at h
  split_ifs at h with h1 h2 h3
  have hl : l = ⟨urljoinModel base_url href, some text, category⟩ :=
    (Option.some_injective _ h).symm
  subst hl
  simp only [Bool.or_eq_true, beq_iff_eq] at h1
  push_neg at h1
  simp only [Bool.and_eq_true, bne_iff_ne] at h2
  push_neg at h2
  refine ⟨?_, ?_, rfl, h1.1.2⟩
  · by_cases hd : urlDomain (urljoinModel base_url href) = ""
    · exact Or.inl hd
    · exact Or.inr (h2 (by simpa using hd))
  · simpa using h3

/-- C4 counterexample: in the AI fallback path, a candidate whose href is
a pure `#` anchor and whose title is absent is admitted into the final
result (the claim says such a candidate is rejected in every extraction
path). -/
theorem C4_counterexample :
    processAILinks "https://example.com/docs/" [⟨"#intro", none, none⟩] =
      [⟨"https://example.com/docs/#intro", none, none⟩] := by
  decide

/-- C4 (amended): the full admission filter — nonempty href, nonempty
title, no `#` anchor, same (nonempty) resolved domain, no denylist
match — is applied exactly in the structural dialect paths, which all go
through `_create_doc_link`; the AI fallback path applies only the
empty-href, domain and denylist filters, so its results can carry empty
titles and anchor links.  Every returned link, in both paths, matches no
denylist substring and has either an empty resolved domain or the base
URL domain. -/
theorem C4_admission_filter :
    (∀ href text base_url base_domain category,
      createDocLink href text base_url base_domain category = none ↔
        (href = "" ∨ text = "" ∨ pyStartsWith href "#" = true ∨
         (urlDomain (urljoinModel base_url href) ≠ "" ∧
          urlDomain (urljoinModel base_url href) ≠ base_domain) ∨
         matchesDenylist (urljoinModel base_url href) = true)) ∧
    (∀ raw base_url, ∀ l ∈ extractLinksFromSidebar raw base_url,
      (urlDomain l.url = "" ∨ urlDomain l.url = urlDomain base_url) ∧
        matchesDenylist l.url = false ∧ ∃ t, l.title = some t ∧ t ≠ "") ∧
    (∀ base_url lds, ∀ l ∈ processAILinks base_url lds,
      (urlDomain l.url = "" ∨ urlDomain l.url = urlDomain base_url) ∧
        matchesDenylist l.url = false) := by
  refine ⟨createDocLink_none_iff, ?_, ?_⟩
  · intro raw base_url l hl
    have hmem := (dedupLoop_mem _ [] hl).1
    rcases List.mem_filterMap.mp hmem with ⟨c, _, hc⟩
    rcases createDocLink_some_props hc with ⟨hdom, hdeny, htitle, hne⟩
    exact ⟨hdom, hdeny, c.text, htitle, hne⟩
  · intro base_url lds l hl
    have hmem := (dedupLoop_mem _ [] hl).1
    rcases List.mem_filterMap.mp hmem with ⟨c, _, hc⟩
    simp only at hc
    split_ifs at hc with h1 h2 h3
    have hl2 : l = ⟨urljoinModel base_url c.url, c.title, c.category⟩ :=
      (Option.some_injective _ hc).symm
    subst hl2
    simp only [Bool.and_eq_true, bne_iff_ne, not_and_or, not_ne_iff] at h2
    constructor
    · simpa using h2
    · simpa using h3

/-- C4 witness: the structural-path guarantees instantiated on a
concrete sidebar extraction. -/
theorem C4_admission_filter_witness :
    (urlDomain (⟨"https://example.com/docs/page2", some "Guide", some "Basics"⟩ : DocLink).url = "" ∨
      urlDomain (⟨"https://example.com/docs/page2", some "Guide", some "Basics"⟩ : DocLink).url =
        urlDomain "https://example.com/docs/intro") ∧
      matchesDenylist (⟨"https://example.com/docs/page2", some "Guide", some "Basics"⟩ : DocLink).url = false ∧
      ∃ t, (⟨"https://example.com/docs/page2", some "Guide", some "Basics"⟩ : DocLink).title = some t ∧ t ≠ "" := by
  exact C4_admission_filter.2.1 [⟨"page2", "Guide", some "Basics"⟩]
    "https://example.com/docs/intro"
    ⟨"https://example.com/docs/page2", some "Guide", some "Basics"⟩ (by decide)

/-! ## C3: failure semantics of the extraction tiers -/

/-- C3 counterexample: with no sidebar in the page, the AI fallback tier
runs, and an exception raised by the model call (for instance the
ValueError for a missing API key inside `create_navigation_model`, or a
provider error from `agent(prompt)`) propagates past
`extract_navigation_links` instead of yielding an empty list. -/
theorem C3_counterexample :
    extractNavigationLinks BrowserOutcome.unavailable
      (AgentOutcome.raises "ValueError: GEMINI_API_KEY environment variable is required")
      ⟨none, []⟩ "https://example.com/docs/" =
      Except.error "ValueError: GEMINI_API_KEY environment variable is required" := by
  rfl

/-- C3 (amended): an exception inside the browser/rendering tier is
caught and degrades to HTML parsing exactly as when that tier is not
attempted; the structural sidebar tier never raises; when the AI model
call does not raise, no exception passes the top-level entry point and
an extraction that finds nothing returns the empty list — but an
exception raised by the AI model invocation does propagate past
`extract_navigation_links`. -/
theorem C3_failure_semantics :
    (∀ msg agent doc base_url,
      extractNavigationLinks (BrowserOutcome.raises msg) agent doc base_url =
        extractNavigationLinks BrowserOutcome.unavailable agent doc base_url) ∧
    (∀ agent doc base_url raw, doc.sidebarRaw = some raw →
      extractNavigationLinks BrowserOutcome.unavailable agent doc base_url =
        Except.ok (extractLinksFromSidebar raw base_url)) ∧
    (∀ browser agent doc base_url, (∀ msg, agent ≠ AgentOutcome.raises msg) →
      ∃ links, extractNavigationLinks browser agent doc base_url = Except.ok links) ∧
    (∀ base_url,
      extractNavigationLinks BrowserOutcome.unavailable AgentOutcome.noJsonArray
        ⟨none, []⟩ base_url = Except.ok []) := by
  refine ⟨?_, ?_, ?_, ?_⟩
  · intro msg agent doc base_url
    rfl
  · intro agent doc base_url raw h
    cases doc with
    | mk sidebarRaw navFallbackRaw =>
      simp only at h
      subst h
      rfl
  · intro browser agent doc base_url hnr
    cases browser with
    | ok links => exact ⟨links, rfl⟩
    | raises msg =>
      cases hs : doc.sidebarRaw with
      | some raw =>
        exact ⟨extractLinksFromSidebar raw base_url, by
          simp [extractNavigationLinks, extractFromHtmlSmart, hs]⟩
      | none =>
        cases agent with
        | raises m => exact absurd rfl (hnr m)
        | parsed links_data =>
          exact ⟨processAILinks base_url links_data, by
            simp [extractNavigationLinks, extractFromHtmlSmart, extractWithAI, hs]⟩
        | noJsonArray =>
          exact ⟨processAILinks base_url [], by
            simp [extractNavigationLinks, extractFromHtmlSmart, extractWithAI, hs]⟩
        | parseError =>
          exact ⟨processAILinks base_url doc.navFallbackRaw, by
            simp [extractNavigationLinks, extractFromHtmlSmart, extractWithAI, hs]⟩
    | unavailable =>
      cases hs : doc.sidebarRaw with
      | some raw =>
        exact ⟨extractLinksFromSidebar raw base_url, by
          simp [extractNavigationLinks, extractFromHtmlSmart, hs]⟩
      | none =>
        cases agent with
        | raises m => exact absurd rfl (hnr m)
        | parsed links_data =>
          exact ⟨processAILinks base_url links_data, by
            simp [extractNavigationLinks, extractFromHtmlSmart, extractWithAI, hs]⟩
        | noJsonArray =>
          exact ⟨processAILinks base_url [], by
            simp [extractNavigationLinks, extractFromHtmlSmart, extractWithAI, hs]⟩
        | parseError =>
          exact ⟨processAILinks base_url doc.navFallbackRaw, by
            simp [extractNavigationLinks, extractFromHtmlSmart, extractWithAI, hs]⟩
  · intro base_url
    rfl

/-- C3 witness: the no-raise guarantee instantiated at a concrete
parsed-response agent outcome and concrete page. -/
theorem C3_failure_semantics_witness :
    ∃ links,
      extractNavigationLinks BrowserOutcome.unavailable (AgentOutcome.parsed [])
        ⟨none, []⟩ "https://example.com/docs/" = Except.ok links := by
  exact C3_failure_semantics.2.2.1 BrowserOutcome.unavailable (AgentOutcome.parsed [])
    ⟨none, []⟩ "https://example.com/docs/" (by intro msg h; cases h)

/-! ## C2: retry with exponential backoff -/

theorem retryLoop_succeeds {E A : Type} (f : Nat → Except E A) (maxR : Nat) (a : A) :
    ∀ k start, start + k < maxR → (∀ i, i < k → ∃ e, f (start + i) = .error e) →
      f (start + k) = .ok a →
      retryLoop f maxR start =
        (some (.ok a), (List.range k).map (fun i => 2 ^ (start + i))) := by
  intro k
  induction k with
  | zero =>
    intro start hlt _ hok
    rw [retryLoop, dif_pos (by omega : start < maxR)]
    simp only [Nat.add_zero] at hok
    rw [hok]
    simp
  | succ k ih =>
    intro start hlt hfail hok
    rw [retryLoop, dif_pos (by omega : start < maxR)]
    rcases hfail 0 (by omega) with ⟨e, he⟩
    simp only [Nat.add_zero] at he
    rw [he]
    dsimp only
    rw [if_neg (by omega : ¬ start = maxR - 1)]
    have hrec := ih (start + 1) (by omega)
      (fun i hi => by
        rcases hfail (i + 1) (by omega) with ⟨e2, he2⟩
        exact ⟨e2, by rw [show start + 1 + i = start + (i + 1) by omega]; exact he2⟩)
      (by rw [show start + 1 + k = start + (k + 1) by omega]; exact hok)
    rw [hrec]
    simp only [List.range_succ_eq_map, List.map_cons, List.map_map]
    refine Prod.ext rfl ?_
    simp only [Nat.add_zero]
    refine List.cons_eq_cons.mpr ⟨rfl, ?_⟩
    apply List.map_congr_left
    intro i _
    simp only [Function.comp_apply]
    congr 1
    omega

theorem range_two_pow_sum : ∀ k : Nat, ((List.range k).map (fun i => 2 ^ i)).sum = 2 ^ k - 1 := by
  intro k
  induction k with
  | zero => simp
  | succ k ih =>
    rw [List.range_succ, List.map_append, List.sum_append, ih]
    have h1 : 1 ≤ 2 ^ k := Nat.one_le_two_pow
    simp only [List.map_cons, List.map_nil, List.sum_cons, List.sum_nil]
    rw [pow_succ]
    omega

theorem retryLoop_allfail {E A : Type} (f : Nat → Except E A) (errs : Nat → E) (maxR : Nat) :
    ∀ k start, start + k + 1 = maxR → (∀ i, start ≤ i → i < maxR → f i = .error (errs i)) →
      retryLoop (A := A) f maxR start =
        (some (.error (errs (maxR - 1))), (List.range k).map (fun i => 2 ^ (start + i))) := by
  intro k
  induction k with
  | zero =>
    intro start hm hfail
    rw [retryLoop, dif_pos (by omega : start < maxR)]
    rw [hfail start (by omega) (by omega)]
    dsimp only
    rw [if_pos (by omega : start = maxR - 1)]
    have : start = maxR - 1 := by omega
    rw [this]
    simp
  | succ k ih =>
    intro start hm hfail
    rw [retryLoop, dif_pos (by omega : start < maxR)]
    rw [hfail start (by omega) (by omega)]
    dsimp only
    rw [if_neg (by omega : ¬ start = maxR - 1)]
    rw [ih (start + 1) (by omega) (fun i hi1 hi2 => hfail i (by omega) hi2)]
    simp only [List.range_succ_eq_map, List.map_cons, List.map_map]
    refine Prod.ext rfl ?_
    simp only [Nat.add_zero]
    refine List.cons_eq_cons.mpr ⟨rfl, ?_⟩
    apply List.map_congr_left
    intro i _
    simp only [Function.comp_apply]
    congr 1
    omega

/-- C2: a fetch failing `k < max_retries` times and then succeeding
returns the extracted successful result with sleeps `2^0, …, 2^(k-1)`
totalling `2^k - 1` seconds; when every one of the `max_retries`
attempts fails, the last error is raised out of `fetch_page_content`;
and `crawl_pages` skips a failing link and keeps the results of all
remaining links. -/
theorem C2_retry_backoff :
    (∀ (E A : Type) (f : Nat → Except E String) (extract : String → A) (html : String)
        (k maxR : Nat), k < maxR →
      (∀ i, i < k → ∃ e, f i = .error e) → f k = .ok html →
      fetchPageContent f extract maxR =
          (some (.ok (extract html)), (List.range k).map (fun i => 2 ^ i)) ∧
        ((List.range k).map (fun i => 2 ^ i)).sum = 2 ^ k - 1) ∧
    (∀ (E A : Type) (f : Nat → Except E String) (extract : String → A) (errs : Nat → E)
        (maxR : Nat), 0 < maxR →
      (∀ i, i < maxR → f i = .error (errs i)) →
      fetchPageContent f extract maxR =
        (some (.error (errs (maxR - 1))),
         (List.range (maxR - 1)).map (fun i => 2 ^ i))) ∧
    (∀ (E A : Type) (xs ys : List (Except E A)) (e : E),
      crawlPages (xs ++ .error e :: ys) = crawlPages xs ++ crawlPages ys) := by
  refine ⟨?_, ?_, ?_⟩
  · intro E A f extract html k maxR hk hfail hok
    have h := retryLoop_succeeds f maxR html k 0 (by omega)
      (fun i hi => by simpa using hfail i hi) (by simpa using hok)
    simp only [Nat.zero_add] at h
    constructor
    · simp only [fetchPageContent, h]
    · exact range_two_pow_sum k
  · intro E A f extract errs maxR hpos hfail
    have h := retryLoop_allfail f errs maxR (maxR - 1) 0 (by omega)
      (fun i _ hi => hfail i hi)
    simp only [Nat.zero_add] at h
    simp only [fetchPageContent, h]
  · intro E A xs ys e
    simp [crawlPages, List.filterMap_append]

/-- C2 witness: two failures then a success with `max_retries = 3`
sleeps 1 and 2 seconds (total `2^2 - 1 = 3`), and a failing middle link
is skipped by the crawl loop. -/
theorem C2_retry_backoff_witness :
    (fetchPageContent
        (fun i => if i = 2 then Except.ok "html" else Except.error (i : Nat))
        (fun s => s ++ "!") 3 =
          (some (.ok "html!"), (List.range 2).map (fun i => 2 ^ i)) ∧
      ((List.range 2).map (fun i => 2 ^ i)).sum = 2 ^ 2 - 1) ∧
    crawlPages (([Except.ok 10] : List (Except String Nat)) ++ Except.error "boom" :: [Except.ok 20]) =
      crawlPages ([Except.ok 10] : List (Except String Nat)) ++
        crawlPages ([Except.ok 20] : List (Except String Nat)) := by
  constructor
  · exact C2_retry_backoff.1 Nat String
      (fun i => if i = 2 then Except.ok "html" else Except.error (i : Nat))
      (fun s => s ++ "!") "html" 2 3 (by omega)
      (fun i hi => ⟨i, by
        show (if i = 2 then Except.ok "html" else Except.error i) = Except.error i
        rw [if_neg (by omega)]⟩)
      (by
        show (if 2 = 2 then Except.ok "html" else Except.error 2) = Except.ok "html"
        rw [if_pos rfl])
  · exact C2_retry_backoff.2.2 String Nat [Except.ok 10] [Except.ok 20] "boom"

/-! ## C6: fallback path-segment grouping -/

theorem count_addIndexToGroups :
    ∀ (acc : List (String × List Nat)) (key : String) (i j : Nat),
      (((addIndexToGroups acc key i).map Prod.snd).flatten).count j =
        ((acc.map Prod.snd).flatten).count j + (if j = i then 1 else 0) := by
  intro acc
  induction acc with
  | nil =>
    intro key i j
    simp only [addIndexToGroups, List.map_cons, List.map_nil, List.flatten_cons,
      List.flatten_nil, List.append_nil, List.count_singleton, List.count_nil,
      beq_iff_eq]
    split_ifs <;> omega
  | cons a rest ih =>
    intro key i j
    rcases a with ⟨k, idxs⟩
    simp only [addIndexToGroups]
    by_cases hk : k = key
    · rw [if_pos hk]
      simp only [List.map_cons, List.flatten_cons, List.count_append,
        List.count_singleton, List.count_nil, beq_iff_eq]
      split_ifs <;> omega
    · rw [if_neg hk]
      simp only [List.map_cons, List.flatten_cons, List.count_append, ih]
      omega

theorem count_buildPathGroups :
    ∀ (urls : List String) (i : Nat) (acc : List (String × List Nat)) (j : Nat),
      (((buildPathGroups urls i acc).map Prod.snd).flatten).count j =
        ((acc.map Prod.snd).flatten).count j +
          (if i ≤ j ∧ j < i + urls.length then 1 else 0) := by
  intro urls
  induction urls with
  | nil =>
    intro i acc j
    simp only [buildPathGroups, List.length_nil]
    split_ifs <;> omega
  | cons u rest ih =>
    intro i acc j
    simp only [buildPathGroups, List.length_cons]
    rw [ih, count_addIndexToGroups]
    split_ifs <;> omega

theorem count_range_eq (n j : Nat) :
    (List.range n).count j = if j < n then 1 else 0 := by
  by_cases h : j < n
  · rw [if_pos h]
    exact List.count_eq_one_of_mem (List.nodup_range n) (List.mem_range.mpr h)
  · rw [if_neg h]
    exact List.count_eq_zero_of_not_mem (fun hc => h (List.mem_range.mp hc))

/-- C6: the fallback grouping partitions the page indices exactly —
every index `j < n` occurs exactly once across the groups and no other
index occurs; when the path-segment grouping yields more than 10 groups
it collapses to the single group named `documentation` holding all
indices; and 15 pages under 15 distinct path segments trigger the
consolidation, producing exactly that one group with all 15 indices. -/
theorem C6_fallback_grouping :
    (∀ urls j,
      (((fallbackGrouping urls).map GroupDict.page_indices).flatten).count j =
        if j < urls.length then 1 else 0) ∧
    (∀ urls, 10 < (buildPathGroups urls 0 []).length →
      fallbackGrouping urls =
        [⟨"documentation", List.range urls.length, "All documentation pages"⟩]) ∧
    fallbackGrouping
        ["https://example.com/s1/a", "https://example.com/s2/a",
         "https://example.com/s3/a", "https://example.com/s4/a",
         "https://example.com/s5/a", "https://example.com/s6/a",
         "https://example.com/s7/a", "https://example.com/s8/a",
         "https://example.com/s9/a", "https://example.com/s10/a",
         "https://example.com/s11/a", "https://example.com/s12/a",
         "https://example.com/s13/a", "https://example.com/s14/a",
         "https://example.com/s15/a"] =
      [⟨"documentation", List.range 15, "All documentation pages"⟩] := by
  refine ⟨?_, ?_, ?_⟩
  · intro urls j
    simp only [fallbackGrouping]
    by_cases hlen : ((buildPathGroups urls 0 []).map (fun g =>
        (⟨g.1, g.2, "Documentation pages under /" ++ g.1⟩ : GroupDict))).length > 10
    · rw [if_pos hlen]
      simp only [List.map_cons, List.map_nil, List.flatten_cons, List.flatten_nil,
        List.append_nil]
      exact count_range_eq _ j
    · rw [if_neg hlen]
      rw [List.map_map]
      have hcomp : (GroupDict.page_indices ∘ fun (g : String × List Nat) =>
          (⟨g.1, g.2, "Documentation pages under /" ++ g.1⟩ : GroupDict)) = Prod.snd := by
        funext g
        rfl
      rw [hcomp, count_buildPathGroups urls 0 [] j]
      simp only [List.map_nil, List.flatten_nil, List.count_nil, Nat.zero_add,
        Nat.zero_le, true_and]
  · intro urls h
    simp only [fallbackGrouping]
    rw [if_pos (by simpa using h)]
  · decide

/-- C6 witness: eleven distinct path segments exceed the 10-group bound,
so the grouping collapses to the single `documentation` group. -/
theorem C6_fallback_grouping_witness :
    fallbackGrouping
        ["https://example.com/a1/x", "https://example.com/a2/x",
         "https://example.com/a3/x", "https://example.com/a4/x",
         "https://example.com/a5/x", "https://example.com/a6/x",
         "https://example.com/a7/x", "https://example.com/a8/x",
         "https://example.com/a9/x", "https://example.com/b1/x",
         "https://example.com/b2/x"] =
      [⟨"documentation",
        List.range (["https://example.com/a1/x", "https://example.com/a2/x",
         "https://example.com/a3/x", "https://example.com/a4/x",
         "https://example.com/a5/x", "https://example.com/a6/x",
         "https://example.com/a7/x", "https://example.com/a8/x",
         "https://example.com/a9/x", "https://example.com/b1/x",
         "https://example.com/b2/x"] : List String).length,
        "All documentation pages"⟩] := by
  exact C6_fallback_grouping.2.1
    ["https://example.com/a1/x", "https://example.com/a2/x",
     "https://example.com/a3/x", "https://example.com/a4/x",
     "https://example.com/a5/x", "https://example.com/a6/x",
     "https://example.com/a7/x", "https://example.com/a8/x",
     "https://example.com/a9/x", "https://example.com/b1/x",
     "https://example.com/b2/x"] (by decide)

/-! ## C7: content deduplication -/

theorem collectUniqueCode_fst_nil_iff :
    ∀ (bs seen : List String),
      (collectUniqueCode bs seen).1 = [] ↔ ∀ b ∈ bs, codeFingerprint b ∈ seen := by
  intro bs
  induction bs with
  | nil => intro seen; simp [collectUniqueCode]
  | cons c cs ih =>
    intro seen
    simp only [collectUniqueCode]
    by_cases hc : codeFingerprint c ∈ seen
    · rw [if_pos hc, ih seen]
      constructor
      · intro h b hb
        rcases List.mem_cons.mp hb with hb | hb
        · exact hb ▸ hc
        · exact h b hb
      · intro h b hb
        exact h b (List.mem_cons_of_mem _ hb)
    · rw [if_neg hc]
      dsimp only
      refine iff_of_false (by simp) ?_
      intro h
      exact hc (h c (List.mem_cons_self _ _))

theorem collectUniqueCode_snd_mem :
    ∀ (bs seen : List String) (x : String),
      x ∈ (collectUniqueCode bs seen).2 ↔
        x ∈ seen ∨ ∃ b ∈ bs, codeFingerprint b = x := by
  intro bs
  induction bs with
  | nil => intro seen x; simp [collectUniqueCode]
  | cons c cs ih =>
    intro seen x
    simp only [collectUniqueCode]
    by_cases hc : codeFingerprint c ∈ seen
    · rw [if_pos hc, ih]
      constructor
      · rintro (h | ⟨b, hb, hfp⟩)
        · exact Or.inl h
        · exact Or.inr ⟨b, List.mem_cons_of_mem _ hb, hfp⟩
      · rintro (h | ⟨b, hb, hfp⟩)
        · exact Or.inl h
        · rcases List.mem_cons.mp hb with hb | hb
          · subst hb
            exact Or.inl (hfp ▸ hc)
          · exact Or.inr ⟨b, hb, hfp⟩
    · rw [if_neg hc]
      dsimp only
      rw [ih]
      simp only [List.mem_cons]
      constructor
      · rintro ((h | h) | ⟨b, hb, hfp⟩)
        · exact Or.inr ⟨c, Or.inl rfl, h.symm⟩
        · exact Or.inl h
        · exact Or.inr ⟨b, Or.inr hb, hfp⟩
      · rintro (h | ⟨b, hb | hb, hfp⟩)
        · exact Or.inl (Or.inr h)
        · subst hb
          exact Or.inl (Or.inl hfp.symm)
        · exact Or.inr ⟨b, hb, hfp⟩

theorem dedupCodeInPage_mem_not_seen {c : String} :
    ∀ (bs seen : List String), c ∈ dedupCodeInPage bs seen → codeFingerprint c ∉ seen := by
  intro bs
  induction bs with
  | nil => intro seen h; simp [dedupCodeInPage] at h
  | cons b rest ih =>
    intro seen h
    rw [dedupCodeInPage] at h
    by_cases hb : codeFingerprint b ∈ seen
    · rw [if_pos hb] at h
      exact ih seen h
    · rw [if_neg hb] at h
      rcases List.mem_cons.mp h with h | h
      · exact h ▸ hb
      · intro hc
        exact ih _ h (List.mem_cons_of_mem _ hc)

theorem dedupCodeInPage_pairwise :
    ∀ (bs seen : List String),
      List.Pairwise (fun a b => codeFingerprint a ≠ codeFingerprint b)
        (dedupCodeInPage bs seen) := by
  intro bs
  induction bs with
  | nil => intro seen; simp [dedupCodeInPage]
  | cons b rest ih =>
    intro seen
    rw [dedupCodeInPage]
    by_cases hb : codeFingerprint b ∈ seen
    · rw [if_pos hb]
      exact ih seen
    · rw [if_neg hb]
      refine List.pairwise_cons.mpr ⟨fun c hc => ?_, ih _⟩
      have := dedupCodeInPage_mem_not_seen rest _ hc
      intro hbc
      exact this (hbc ▸ List.mem_cons_self _ _)

theorem contentFpsOf_append (prev : List PageC) (p : PageC) :
    contentFpsOf (prev ++ [p]) = contentFpsOf prev ++ [contentFingerprint p.content] := by
  simp [contentFpsOf]

theorem codeFpsOf_append (prev : List PageC) (p : PageC) :
    codeFpsOf (prev ++ [p]) = codeFpsOf prev ++ p.code_blocks.map codeFingerprint := by
  simp [codeFpsOf]

theorem dedupPagesLoop_urls :
    ∀ (pages prev : List PageC) (seenC seenK : List String),
      (∀ x, x ∈ seenC ↔ x ∈ contentFpsOf prev) →
      (∀ x, x ∈ seenK ↔ x ∈ codeFpsOf prev) →
      (dedupPagesLoop pages seenC seenK).map PageC.url =
        (specRetainedAux prev pages).map PageC.url := by
  intro pages
  induction pages with
  | nil =>
    intro prev seenC seenK _ _
    simp [dedupPagesLoop, specRetainedAux]
  | cons p rest ih =>
    intro prev seenC seenK hC hK
    simp only [dedupPagesLoop, specRetainedAux]
    have hiff : (collectUniqueCode p.code_blocks seenK).1 ≠ [] ↔
        ∃ b ∈ p.code_blocks, codeFingerprint b ∉ seenK := by
      rw [Ne, collectUniqueCode_fst_nil_iff]
      push_neg
      exact Iff.rfl
    have h1 : (contentFingerprint p.content ∉ seenC) ↔
        (contentFingerprint p.content ∉ contentFpsOf prev) := not_congr (hC _)
    have h2 : ((collectUniqueCode p.code_blocks seenK).1 ≠ []) ↔
        (∃ b ∈ p.code_blocks, codeFingerprint b ∉ codeFpsOf prev) := by
      rw [hiff]
      constructor
      · rintro ⟨b, hb, hfp⟩
        exact ⟨b, hb, fun hc => hfp ((hK _).mpr hc)⟩
      · rintro ⟨b, hb, hfp⟩
        exact ⟨b, hb, fun hc => hfp ((hK _).mp hc)⟩
    have hcond := or_congr h1 h2
    have hK2 : ∀ x, x ∈ (collectUniqueCode p.code_blocks seenK).2 ↔
        x ∈ codeFpsOf (prev ++ [p]) := by
      intro x
      rw [collectUniqueCode_snd_mem, codeFpsOf_append]
      simp only [List.mem_append, List.mem_map]
      rw [hK x]
    by_cases h : contentFingerprint p.content ∉ contentFpsOf prev ∨
        ∃ b ∈ p.code_blocks, codeFingerprint b ∉ codeFpsOf prev
    · rw [if_pos (hcond.mpr h), if_pos h]
      have hC2 : ∀ x, x ∈ (contentFingerprint p.content :: seenC) ↔
          x ∈ contentFpsOf (prev ++ [p]) := by
        intro x
        rw [contentFpsOf_append]
        simp only [List.mem_cons, List.mem_append, List.mem_singleton,
          List.not_mem_nil, or_false]
        rw [hC x]
        exact or_comm
      simp only [List.map_cons]
      exact congrArg (fun l => p.url :: l) (ih (prev ++ [p]) _ _ hC2 hK2)
    · rw [if_neg (fun hc => h (hcond.mp hc)), if_neg h]
      push_neg at h
      have hC3 : ∀ x, x ∈ seenC ↔ x ∈ contentFpsOf (prev ++ [p]) := by
        intro x
        rw [contentFpsOf_append]
        simp only [List.mem_append, List.mem_singleton]
        constructor
        · intro hx
          exact Or.inl ((hC x).mp hx)
        · rintro (hx | hx)
          · exact (hC x).mpr hx
          · subst hx
            exact (hC _).mpr h.1
      exact ih (prev ++ [p]) seenC _ hC3 hK2

theorem dedupPagesLoop_code_bound :
    ∀ (pages : List PageC) (seenC seenK : List String),
      ∀ q ∈ dedupPagesLoop pages seenC seenK,
        q.code_blocks.length ≤ 10 ∧
          List.Pairwise (fun a b => codeFingerprint a ≠ codeFingerprint b) q.code_blocks := by
  intro pages
  induction pages with
  | nil =>
    intro seenC seenK q hq
    simp [dedupPagesLoop] at hq
  | cons p rest ih =>
    intro seenC seenK q hq
    simp only [dedupPagesLoop] at hq
    split_ifs at hq with h
    · rcases List.mem_cons.mp hq with hq | hq
      · subst hq
        constructor
        · exact List.length_take_le 10 _
        · exact List.Pairwise.sublist (List.take_sublist _ _) (dedupCodeInPage_pairwise _ [])
      · exact ih _ _ q hq
    · exact ih _ _ q hq

/-- C7 counterexample: the group is the two pages P1 and P2, each with
the single code block `"x = 1"`.  P2 is retained (novel content), and
its stored code blocks still contain `"x = 1"` even though that block
fingerprint was already seen in P1 — the stored blocks of a retained
page are not deduplicated against the group-wide seen-set, contrary to
the claim. -/
theorem C7_counterexample :
    deduplicateContentWithContext
        [⟨"u1", "t1", "alpha text", ["x = 1"]⟩, ⟨"u2", "t2", "beta text", ["x = 1"]⟩] =
      [⟨"u1", "t1", "alpha text", ["x = 1"]⟩, ⟨"u2", "t2", "beta text", ["x = 1"]⟩] := by
  decide

/-- C7 (amended): a page is retained exactly when its normalized
leading-content fingerprint is novel or it contributes a code block
whose fingerprint has not been seen earlier in the group (the retained
pages match the spec-modelled retention rule); within each retained
page the stored code blocks are the page's own blocks with the
group-novel ones prepended, language-prioritized, deduplicated within
the page (not against the group-wide seen-set) and capped to 10. -/
theorem C7_dedup_retention :
    ∀ pages : List PageC,
      (deduplicateContentWithContext pages).map PageC.url =
          (specRetained pages).map PageC.url ∧
        ∀ q ∈ deduplicateContentWithContext pages,
          q.code_blocks.length ≤ 10 ∧
            List.Pairwise (fun a b => codeFingerprint a ≠ codeFingerprint b) q.code_blocks := by
  intro pages
  constructor
  · exact dedupPagesLoop_urls pages [] [] [] (fun x => by simp [contentFpsOf])
      (fun x => by simp [codeFpsOf])
  · exact dedupPagesLoop_code_bound pages [] []

/-- C7 witness: the amended per-page guarantees instantiated on the
concrete two-page group. -/
theorem C7_dedup_retention_witness :
    (⟨"u2", "t2", "beta text", ["x = 1"]⟩ : PageC).code_blocks.length ≤ 10 ∧
      List.Pairwise (fun a b => codeFingerprint a ≠ codeFingerprint b)
        (⟨"u2", "t2", "beta text", ["x = 1"]⟩ : PageC).code_blocks := by
  exact (C7_dedup_retention
      [⟨"u1", "t1", "alpha text", ["x = 1"]⟩, ⟨"u2", "t2", "beta text", ["x = 1"]⟩]).2
    ⟨"u2", "t2", "beta text", ["x = 1"]⟩ (by decide)

/-! ## C1: content-group storage -/

theorem find?_append_of_none {α : Type} (p : α → Bool) {l1 : List α}
    (h : l1.find? p = none) (l2 : List α) : (l1 ++ l2).find? p = l2.find? p := by
  induction l1 with
  | nil => rfl
  | cons a t ih =>
    rw [List.find?_cons] at h
    rcases hp : p a with _ | _
    · rw [List.cons_append, List.find?_cons_of_neg _ (by simp [hp])]
      rw [hp] at h
      exact ih (by simpa using h)
    · rw [hp] at h
      simp at h

theorem storePagesFold_fields (cgid : Nat) (pgs : List (String × String × String)) :
    ∀ st : DbState,
      ((pgs.foldl (fun st pg =>
          { st with
            pages := st.pages ++ [⟨st.nextPageId, cgid, pg.1, pg.2.1, pg.2.2⟩],
            nextPageId := st.nextPageId + 1 }) st).projects = st.projects ∧
        (pgs.foldl (fun st pg =>
          { st with
            pages := st.pages ++ [⟨st.nextPageId, cgid, pg.1, pg.2.1, pg.2.2⟩],
            nextPageId := st.nextPageId + 1 }) st).content_groups = st.content_groups ∧
        (pgs.foldl (fun st pg =>
          { st with
            pages := st.pages ++ [⟨st.nextPageId, cgid, pg.1, pg.2.1, pg.2.2⟩],
            nextPageId := st.nextPageId + 1 }) st).nextGroupId = st.nextGroupId) := by
  induction pgs with
  | nil => intro st; exact ⟨rfl, rfl, rfl⟩
  | cons pg rest ih =>
    intro st
    simp only [List.foldl_cons]
    exact ih _

/-- C1 counterexample: on a fresh database, storing a group named
`group` and then storing a group with the same name in the same project
makes the second call raise the IntegrityError of the
`UNIQUE(project_id, name)` constraint — it does not replace; the rolled
back store leaves exactly one row holding the first summary, not the
latest one. -/
theorem C1_counterexample :
    ((storeContentGroup emptyDb "proj" ⟨"group", "first summary", [("u", "t", "c")]⟩
        "https://root").bind (fun r =>
      storeContentGroup r.1 "proj" ⟨"group", "second summary", []⟩ "https://root")) =
        Except.error uniqueViolationMsg ∧
      storeContentGroup emptyDb "proj" ⟨"group", "first summary", [("u", "t", "c")]⟩
          "https://root" =
        Except.ok (⟨[⟨1, "proj", "https://root"⟩], [⟨1, 1, "group", "first summary"⟩],
          [⟨1, 1, "u", "t", "c"⟩], 2, 2, 2⟩, 1) ∧
      (groupRowsFor ⟨[⟨1, "proj", "https://root"⟩], [⟨1, 1, "group", "first summary"⟩],
          [⟨1, 1, "u", "t", "c"⟩], 2, 2, 2⟩ "proj" "group").map CGRow.summary_markdown =
        ["first summary"] := by
  exact ⟨rfl, rfl, rfl⟩

/-- C1 (amended): after a successful `store_content_group`, storing any
group with the same name in the same project fails with the
IntegrityError of the `UNIQUE(project_id, name)` constraint and is
rolled back; the database keeps exactly one `content_groups` row for
that `(project, name)` pair, holding the summary of the first store —
insert-once semantics, not replace semantics. -/
theorem C1_store_not_replace :
    ∀ (s : DbState) (project_name root_url root_url2 : String) (g g2 : ContentGroupC)
      (s2 : DbState) (gid : Nat),
      storeContentGroup s project_name g root_url = Except.ok (s2, gid) →
      g2.name = g.name →
      storeContentGroup s2 project_name g2 root_url2 = Except.error uniqueViolationMsg ∧
        (groupRowsFor s2 project_name g.name).map CGRow.summary_markdown =
          [g.summary_markdown] := by
  intro s project_name root_url root_url2 g g2 s2 gid hstore hname
  simp only [storeContentGroup, getOrCreateProject] at hstore
  rcases hfind : s.projects.find? (fun p => p.name == project_name) with _ | p
  · -- project did not exist: it is created, then the group row is inserted
    rw [hfind] at hstore
    dsimp only at hstore
    split_ifs at hstore with hdup
    rw [Except.ok.injEq, Prod.mk.injEq] at hstore
    obtain ⟨hs2, hgid⟩ := hstore
    have hfields := storePagesFold_fields s.nextGroupId g.pages
      { s with
        projects := s.projects ++ [⟨s.nextProjectId, project_name, root_url⟩],
        nextProjectId := s.nextProjectId + 1,
        content_groups := s.content_groups ++
          [⟨s.nextGroupId, s.nextProjectId, g.name, g.summary_markdown⟩],
        nextGroupId := s.nextGroupId + 1 }
    have hproj : s2.projects =
        s.projects ++ [⟨s.nextProjectId, project_name, root_url⟩] := by
      rw [← hs2]
      exact hfields.1
    have hcg : s2.content_groups = s.content_groups ++
        [⟨s.nextGroupId, s.nextProjectId, g.name, g.summary_markdown⟩] := by
      rw [← hs2]
      exact hfields.2.1
    have hfind2 : s2.projects.find? (fun p => p.name == project_name) =
        some ⟨s.nextProjectId, project_name, root_url⟩ := by
      rw [hproj, find?_append_of_none _ hfind, List.find?_cons_of_pos _ (by simp)]
    have hany : s2.content_groups.any
        (fun cg => cg.project_id == s.nextProjectId && cg.name == g2.name) = true := by
      rw [hcg]
      simp [hname]
    constructor
    · simp only [storeContentGroup, getOrCreateProject]
      rw [hfind2]
      dsimp only
      rw [if_pos hany]
    · simp only [groupRowsFor]
      rw [hfind2]
      dsimp only
      rw [hcg, List.filter_append]
      have hnil : s.content_groups.filter
          (fun cg => cg.project_id == s.nextProjectId && cg.name == g.name) = [] := by
        rw [List.filter_eq_nil_iff]
        intro a ha
        intro hpa
        exact hdup (List.any_eq_true.mpr ⟨a, ha, hpa⟩)
      rw [hnil]
      simp
  · -- project already existed
    rw [hfind] at hstore
    dsimp only at hstore
    split_ifs at hstore with hdup
    rw [Except.ok.injEq, Prod.mk.injEq] at hstore
    obtain ⟨hs2, hgid⟩ := hstore
    have hfields := storePagesFold_fields s.nextGroupId g.pages
      { s with
        content_groups := s.content_groups ++
          [⟨s.nextGroupId, p.id, g.name, g.summary_markdown⟩],
        nextGroupId := s.nextGroupId + 1 }
    have hproj : s2.projects = s.projects := by
      rw [← hs2]
      exact hfields.1
    have hcg : s2.content_groups = s.content_groups ++
        [⟨s.nextGroupId, p.id, g.name, g.summary_markdown⟩] := by
      rw [← hs2]
      exact hfields.2.1
    have hfind2 : s2.projects.find? (fun q => q.name == project_name) = some p := by
      rw [hproj, hfind]
    have hany : s2.content_groups.any
        (fun cg => cg.project_id == p.id && cg.name == g2.name) = true := by
      rw [hcg]
      simp [hname]
    constructor
    · simp only [storeContentGroup, getOrCreateProject]
      rw [hfind2]
      dsimp only
      rw [if_pos hany]
    · simp only [groupRowsFor]
      rw [hfind2]
      dsimp only
      rw [hcg, List.filter_append]
      have hnil : s.content_groups.filter
          (fun cg => cg.project_id == p.id && cg.name == g.name) = [] := by
        rw [List.filter_eq_nil_iff]
        intro a ha
        intro hpa
        exact hdup (List.any_eq_true.mpr ⟨a, ha, hpa⟩)
      rw [hnil]
      simp

/-- C1 witness: the insert-once behaviour instantiated on a concrete
database holding one stored group. -/
theorem C1_store_not_replace_witness :
    storeContentGroup
        ⟨[⟨1, "proj", "https://root"⟩], [⟨1, 1, "group", "first summary"⟩],
         [⟨1, 1, "u", "t", "c"⟩], 2, 2, 2⟩
        "proj" ⟨"group", "second summary", []⟩ "https://root2" =
      Except.error uniqueViolationMsg ∧
      (groupRowsFor
          ⟨[⟨1, "proj", "https://root"⟩], [⟨1, 1, "group", "first summary"⟩],
           [⟨1, 1, "u", "t", "c"⟩], 2, 2, 2⟩ "proj" "group").map
        CGRow.summary_markdown = ["first summary"] := by
  exact C1_store_not_replace emptyDb "proj" "https://root" "https://root2"
    ⟨"group", "first summary", [("u", "t", "c")]⟩ ⟨"group", "second summary", []⟩
    ⟨[⟨1, "proj", "https://root"⟩], [⟨1, 1, "group", "first summary"⟩],
     [⟨1, 1, "u", "t", "c"⟩], 2, 2, 2⟩ 1 rfl rfl

/-! ## C8: searchDoc and its keyword fallback -/

/-- C8: searching with an empty or whitespace-only query returns the
error-shaped response with zero results (the function is total, so it
never raises); whenever the semantic tier is absent, raises, or yields
no results, the response carries exactly the keyword-search results
(project filter resolved Python-style, limit clamped to 1..20); and
every keyword-search result scores the fixed 0.5 and stems from a row of
the project matching the category filter and — when the query splits
into terms — at least one term as a substring of the lowercased title or
summary (OR semantics across terms). -/
theorem C8_search_fallback :
    (∀ semantic db default_project query project category limit,
      pyStrip query = "" →
      searchDocuments semantic db default_project query project category limit =
        ⟨some "Query cannot be empty", [], 0, none⟩) ∧
    (∀ semantic db default_project query project category limit,
      pyStrip query ≠ "" →
      (semantic = SemanticOutcome.noGenerator ∨ (∃ m, semantic = SemanticOutcome.raises m) ∨
        semantic = SemanticOutcome.results []) →
      (searchDocuments semantic db default_project query project category limit).results =
        performKeywordSearch db query (orDefaultStr project default_project) category
          (min (max 1 limit) 20)) ∧
    (∀ db query project_name category limit,
      ∀ r ∈ performKeywordSearch db query project_name category limit,
        r.relevance_score = 1 / 2 ∧
          ∃ row ∈ db, r.slug = row.slug ∧ row.project = project_name ∧
            (∀ c, category = some c → row.category = some c) ∧
            (pySplitWS (lowerStr query) = [] ∨
              ∃ t ∈ pySplitWS (lowerStr query), likeMatch t row = true)) := by
  refine ⟨?_, ?_, ?_⟩
  · intro semantic db default_project query project category limit h
    simp only [searchDocuments]
    rw [if_pos (beq_iff_eq.mpr h)]
  · intro semantic db default_project query project category limit h hsem
    have hneg : ¬ ((pyStrip query == "") = true) := by
      simpa using h
    rcases hsem with hs | ⟨m, hs⟩ | hs <;> subst hs <;>
      simp [searchDocuments, h]
  · intro db query project_name category limit r hr
    rcases List.mem_map.mp hr with ⟨row, hrow, hmk⟩
    have hfil := List.mem_of_mem_take hrow
    rcases List.mem_filter.mp hfil with ⟨hdb, hpred⟩
    simp only [Bool.and_eq_true, Bool.or_eq_true, beq_iff_eq] at hpred
    obtain ⟨⟨hproj, hcat⟩, hterms⟩ := hpred
    subst hmk
    refine ⟨rfl, row, hdb, rfl, hproj, ?_, ?_⟩
    · intro c hc
      subst hc
      simpa using hcat
    · rcases hterms with hterms | hterms
      · exact Or.inl hterms
      · rcases List.any_eq_true.mp hterms with ⟨t, ht, hlike⟩
        exact Or.inr ⟨t, ht, hlike⟩

/-- C8 witness: a whitespace-only query on a concrete configuration
yields the error-shaped empty response. -/
theorem C8_search_fallback_witness :
    searchDocuments SemanticOutcome.noGenerator [] "proj" "   " none none 5 =
      ⟨some "Query cannot be empty", [], 0, none⟩ := by
  exact C8_search_fallback.1 SemanticOutcome.noGenerator [] "proj" "   " none none 5
    (by decide)

/-! ## C9: cosine similarity of normalized vectors -/

theorem sumSquares_nil : sumSquares [] = 0 := by
  simp [sumSquares]

theorem sumSquares_cons (a : ℝ) (v : List ℝ) :
    sumSquares (a :: v) = a * a + sumSquares v := by
  simp [sumSquares]

theorem dotList_nil (w : List ℝ) : dotList [] w = 0 := by
  simp [dotList]

theorem dotList_cons (a b : ℝ) (v w : List ℝ) :
    dotList (a :: v) (b :: w) = a * b + dotList v w := by
  simp [dotList]

theorem sumSquares_nonneg (v : List ℝ) : 0 ≤ sumSquares v := by
  induction v with
  | nil => rw [sumSquares_nil]
  | cons a v ih =>
    rw [sumSquares_cons]
    nlinarith [mul_self_nonneg a]

theorem dotList_sq_le (v : List ℝ) :
    ∀ w, (dotList v w) ^ 2 ≤ sumSquares v * sumSquares w := by
  induction v with
  | nil =>
    intro w
    rw [dotList_nil, sumSquares_nil]
    simp
  | cons a v ih =>
    intro w
    cases w with
    | nil =>
      rw [sumSquares_nil]
      simp [dotList]
    | cons b w =>
      rw [dotList_cons, sumSquares_cons, sumSquares_cons]
      have hA := sumSquares_nonneg v
      have hB := sumSquares_nonneg w
      have hIH := ih w
      rcases eq_or_lt_of_le hA with hA0 | hApos
      · have hd2 : dotList v w ^ 2 = 0 := by nlinarith
        have hd : dotList v w = 0 := by
          have := sq_nonneg (dotList v w)
          nlinarith [sq_abs (dotList v w), abs_nonneg (dotList v w),
            sq_eq_zero_iff.mp hd2]
        rw [hd, ← hA0]
        nlinarith [mul_nonneg (mul_self_nonneg a) hB, mul_self_nonneg b,
          mul_self_nonneg (a * b)]
      · nlinarith [sq_nonneg (a * dotList v w - b * sumSquares v),
          mul_nonneg hApos.le (sub_nonneg.mpr hIH),
          mul_nonneg (sq_nonneg a) (sub_nonneg.mpr hIH)]

theorem dotList_self (v : List ℝ) : dotList v v = sumSquares v := by
  induction v with
  | nil => rw [dotList_nil, sumSquares_nil]
  | cons a v ih => rw [dotList_cons, sumSquares_cons, ih]

theorem dotList_map_div (m1 m2 : ℝ) :
    ∀ v w : List ℝ,
      dotList (v.map (fun x => x / m1)) (w.map (fun x => x / m2)) =
        dotList v w / (m1 * m2) := by
  intro v
  induction v with
  | nil => intro w; simp [dotList]
  | cons a v ih =>
    intro w
    cases w with
    | nil => simp [dotList]
    | cons b w =>
      simp only [List.map_cons, dotList_cons, ih w]
      rw [div_mul_div_comm, div_add_div_same]

theorem sumSquares_map_div (v : List ℝ) (m : ℝ) :
    sumSquares (v.map (fun x => x / m)) = sumSquares v / (m * m) := by
  induction v with
  | nil => simp [sumSquares]
  | cons a v ih =>
    simp only [List.map_cons, sumSquares_cons, ih]
    rw [div_mul_div_comm, div_add_div_same]

theorem vecMagnitude_mul_self (v : List ℝ) :
    vecMagnitude v * vecMagnitude v = sumSquares v := by
  exact Real.mul_self_sqrt (sumSquares_nonneg v)

theorem vecMagnitude_eq_zero_iff (v : List ℝ) :
    vecMagnitude v = 0 ↔ sumSquares v = 0 := by
  unfold vecMagnitude
  rw [Real.sqrt_eq_zero (sumSquares_nonneg v)]

theorem normalizeVector_length (v : List ℝ) :
    (normalizeVector v).length = v.length := by
  unfold normalizeVector
  dsimp only
  split_ifs <;> simp

theorem sumSquares_normalize_le_one (v : List ℝ) :
    sumSquares (normalizeVector v) ≤ 1 := by
  unfold normalizeVector
  dsimp only
  split_ifs with hm
  · rw [(vecMagnitude_eq_zero_iff v).mp hm]
    norm_num
  · rw [sumSquares_map_div, vecMagnitude_mul_self]
    have hS : sumSquares v ≠ 0 := fun hc => hm ((vecMagnitude_eq_zero_iff v).mpr hc)
    rw [div_self hS]

theorem cosine_norm_bound (v w : List ℝ) :
    -1 ≤ cosineSimilarity (normalizeVector v) (normalizeVector w) ∧
      cosineSimilarity (normalizeVector v) (normalizeVector w) ≤ 1 := by
  unfold cosineSimilarity
  split_ifs with hlen
  · norm_num
  · have hcs := dotList_sq_le (normalizeVector v) (normalizeVector w)
    have h1 := sumSquares_normalize_le_one v
    have h2 := sumSquares_normalize_le_one w
    have hA := sumSquares_nonneg (normalizeVector v)
    have hB := sumSquares_nonneg (normalizeVector w)
    have hd2 : (dotList (normalizeVector v) (normalizeVector w)) ^ 2 ≤ 1 := by nlinarith
    constructor <;> nlinarith [hd2]

theorem cosine_norm_self (v : List ℝ) (hv : sumSquares v ≠ 0) :
    cosineSimilarity (normalizeVector v) (normalizeVector v) = 1 := by
  have hm : vecMagnitude v ≠ 0 := fun hc => hv ((vecMagnitude_eq_zero_iff v).mp hc)
  unfold cosineSimilarity
  rw [if_neg (not_not_intro rfl)]
  unfold normalizeVector
  dsimp only
  rw [if_neg hm, dotList_map_div, dotList_self, vecMagnitude_mul_self, div_self hv]

/-- C9 counterexample: the zero vector is returned unchanged by the
normalization step (its magnitude is 0), and the cosine similarity of
two identical zero vectors is 0, not 1. -/
theorem C9_counterexample :
    cosineSimilarity (normalizeVector [(0 : ℝ)]) (normalizeVector [(0 : ℝ)]) ≠ 1 := by
  have hm : vecMagnitude [(0 : ℝ)] = 0 := by
    rw [vecMagnitude_eq_zero_iff, sumSquares_cons, sumSquares_nil]
    ring
  have h0 : cosineSimilarity (normalizeVector [(0 : ℝ)]) (normalizeVector [(0 : ℝ)]) = 0 := by
    unfold normalizeVector
    dsimp only
    rw [if_pos hm]
    unfold cosineSimilarity
    rw [if_neg (not_not_intro rfl), dotList_cons, dotList_nil]
    ring
  rw [h0]
  norm_num

/-- C9 (amended): for any two real vectors passed through the
normalization step the computed cosine similarity lies in `[-1, 1]`
(this also covers the length-mismatch branch, which returns 0), and two
identical vectors of nonzero magnitude yield similarity exactly 1; for
the zero vector — which normalization leaves unchanged — the similarity
of the vector with itself is 0, not 1. -/
theorem C9_cosine_bounds :
    (∀ v w : List ℝ,
      -1 ≤ cosineSimilarity (normalizeVector v) (normalizeVector w) ∧
        cosineSimilarity (normalizeVector v) (normalizeVector w) ≤ 1) ∧
    (∀ v : List ℝ, sumSquares v ≠ 0 →
      cosineSimilarity (normalizeVector v) (normalizeVector v) = 1) := by
  exact ⟨cosine_norm_bound, cosine_norm_self⟩

/-- C9 witness: the vector `[3, 4]` has nonzero sum of squares and its
normalized self-similarity is exactly 1. -/
theorem C9_cosine_bounds_witness :
    cosineSimilarity (normalizeVector [(3 : ℝ), 4]) (normalizeVector [(3 : ℝ), 4]) = 1 := by
  exact C9_cosine_bounds.2 [(3 : ℝ), 4] (by
    rw [sumSquares_cons, sumSquares_cons, sumSquares_nil]
    norm_num)

/-! ## C10: candidate window of the similarity search -/

theorem mem_insertLe {A : Type} (le : A → A → Bool) (a x : A) :
    ∀ l, x ∈ insertLe le a l ↔ x = a ∨ x ∈ l := by
  intro l
  induction l with
  | nil => simp [insertLe]
  | cons b bs ih =>
    simp only [insertLe]
    split_ifs with hle
    · simp [List.mem_cons]
    · simp only [List.mem_cons, ih]
      tauto

theorem mem_sortLe {A : Type} (le : A → A → Bool) (x : A) :
    ∀ l, x ∈ sortLe le l ↔ x ∈ l := by
  intro l
  induction l with
  | nil => simp [sortLe]
  | cons a rest ih =>
    simp only [sortLe, mem_insertLe, ih, List.mem_cons]

theorem searchSimilar_slug_mem
    {db : List DocEmbRow} {query_embedding : List ℝ}
    {project_name category : Option String} {limit : Nat} {threshold : ℝ}
    {r : SearchResultC}
    (hr : r ∈ searchSimilarDocuments db query_embedding project_name category limit threshold) :
    r.slug ∈ ((db.filter (rowMatchesFilters project_name category)).take (limit * 2)).map
      DocEmbRow.slug := by
  simp only [searchSimilarDocuments] at hr
  have hr2 := List.mem_of_mem_take hr
  rw [mem_sortLe] at hr2
  rcases List.mem_filterMap.mp hr2 with ⟨row, hrow, hf⟩
  split_ifs at hf
  have : r = ⟨row.slug, _⟩ := (Option.some_injective _ hf).symm
  rw [this]
  exact List.mem_map_of_mem DocEmbRow.slug hrow

/-- C10: every result of `search_similar_documents` comes from the
window of the (at most) `2 * limit` most recently created rows matching
the project/category filters; the result list never exceeds `limit`
entries; and a stored document whose slug lies outside that window is
never returned, however similar its embedding is to the query. -/
theorem C10_candidate_window :
    (∀ (db : List DocEmbRow) (query_embedding : List ℝ)
        (project_name category : Option String) (limit : Nat) (threshold : ℝ),
      ∀ r ∈ searchSimilarDocuments db query_embedding project_name category limit threshold,
        r.slug ∈ ((db.filter (rowMatchesFilters project_name category)).take
          (limit * 2)).map DocEmbRow.slug) ∧
    (∀ (db : List DocEmbRow) (query_embedding : List ℝ)
        (project_name category : Option String) (limit : Nat) (threshold : ℝ),
      (searchSimilarDocuments db query_embedding project_name category limit
        threshold).length ≤ limit) ∧
    (∀ (db : List DocEmbRow) (query_embedding : List ℝ)
        (project_name category : Option String) (limit : Nat) (threshold : ℝ)
        (d : DocEmbRow), d ∈ db →
      d.slug ∉ ((db.filter (rowMatchesFilters project_name category)).take
        (limit * 2)).map DocEmbRow.slug →
      ∀ r ∈ searchSimilarDocuments db query_embedding project_name category limit threshold,
        r.slug ≠ d.slug) := by
  refine ⟨?_, ?_, ?_⟩
  · intro db query_embedding project_name category limit threshold r hr
    exact searchSimilar_slug_mem hr
  · intro db query_embedding project_name category limit threshold
    simp only [searchSimilarDocuments]
    exact List.length_take_le _ _
  · intro db query_embedding project_name category limit threshold d _ hnot r hr hc
    exact hnot (hc ▸ searchSimilar_slug_mem hr)

/-- C10 witness: a one-row database with a perfectly matching embedding;
the returned result's slug indeed lies in the candidate window. -/
theorem C10_candidate_window_witness :
    "d1" ∈ ((([⟨"d1", "t", none, "s", [(1 : ℝ)], "p"⟩] : List DocEmbRow).filter
      (rowMatchesFilters none none)).take (1 * 2)).map DocEmbRow.slug := by
  have hsim : cosineSimilarity (normalizeVector [(1 : ℝ)]) (normalizeVector [(1 : ℝ)]) = 1 :=
    cosine_norm_self [(1 : ℝ)] (by
      rw [sumSquares_cons, sumSquares_nil]
      norm_num)
  have hpos : (-2 : ℝ) ≤ cosineSimilarity (normalizeVector [(1 : ℝ)])
      (normalizeVector [(1 : ℝ)]) := by
    rw [hsim]
    norm_num
  have hout : searchSimilarDocuments [⟨"d1", "t", none, "s", [(1 : ℝ)], "p"⟩]
      [(1 : ℝ)] none none 1 (-2) =
      [⟨"d1", cosineSimilarity (normalizeVector [(1 : ℝ)]) (normalizeVector [(1 : ℝ)])⟩] := by
    simp only [searchSimilarDocuments]
    norm_num [rowMatchesFilters, List.filter_cons, List.filter_nil, List.take_succ_cons,
      List.take_nil, List.filterMap_cons, List.filterMap_nil, sortLe, insertLe, hpos]
  exact C10_candidate_window.1 [⟨"d1", "t", none, "s", [(1 : ℝ)], "p"⟩] [(1 : ℝ)]
    none none 1 (-2)
    ⟨"d1", cosineSimilarity (normalizeVector [(1 : ℝ)]) (normalizeVector [(1 : ℝ)])⟩
    (by rw [hout]; exact List.mem_singleton.mpr rfl)

end JediMCP
